import Mathlib

/-!
Verification of the natural-language specification of the `angsd-io` repository
against a shallow embedding of its Rust sources.

Conventions of the embedding:

* Byte streams are `List Nat`, each entry a byte value (< 256 where it matters).
* Machine integers (`u32`, `u64`, `usize`) are `Nat`; little-endian encoding and
  decoding are explicit (`leBytes` / `fromLe`).  The on-disk `usize` is 8 bytes,
  as the format assumes 64-bit hosts.
* `f32` / `f64` likelihood values are never interpreted numerically by the code
  under verification; they are carried as opaque 32-bit (resp. 64-bit) words,
  modelled as `Nat` bit patterns.
* Rust panics (`expect`, arithmetic underflow) are modelled by `Option`/`Except`
  results: `none` / `error` where the Rust function does not return normally.
* The BGZF collaborator is modelled as the spec describes it: an in-order byte
  stream with random access by virtual position; a writer's
  `virtual_position()` is the number of bytes written so far, and a reader
  `seek` repositions the byte cursor.
-/

set_option maxRecDepth 4000

namespace AngsdIo

/-! ### Little-endian integer codec (`saf/src/index/traits.rs`) -/

/-- A byte stream: a list of byte values. -/
abbrev Bytes := List Nat

/-- Little-endian encoding of `n` into `w` bytes (`to_le_bytes`). -/
def leBytes : Nat → Nat → Bytes
  | 0, _ => []
  | w + 1, n => n % 256 :: leBytes w (n / 256)

/-- Little-endian decoding of a byte list (`from_le_bytes`). -/
def fromLe (bs : Bytes) : Nat := bs.foldr (fun b acc => b + 256 * acc) 0

/-- Encoding of a `u32` (4 bytes, little-endian). -/
def u32le (n : Nat) : Bytes := leBytes 4 n

/-- Encoding of a `u64` / on-disk `usize` (8 bytes, little-endian). -/
def u64le (n : Nat) : Bytes := leBytes 8 n

/-! ### The SAF band (`saf/src/record.rs`, `Band`) -/

/-- A SAF likelihood value band (`Band { start, likelihoods }`).  Likelihood
values are opaque 32-bit words. -/
structure Band where
  start : Nat
  likelihoods : List Nat
  deriving Repr, DecidableEq

/-- Model of `Band::into_full(self, alleles, fill)`:

    v.splice(0..0, iter::repeat(fill).take(self.start));
    v.extend(iter::repeat(fill).take(alleles + 1 - v.len()));

The extension count `alleles + 1 - v.len()` is an unsigned subtraction in Rust;
when `v.len() > alleles + 1` it does not return normally (overflow panic), which
is modelled by `none`. -/
def Band.intoFull (b : Band) (alleles : Nat) (fill : Nat) : Option (List Nat) :=
  let v := List.replicate b.start fill ++ b.likelihoods
  if v.length ≤ alleles + 1 then
    some (v ++ List.replicate (alleles + 1 - v.length) fill)
  else
    none

/-! ### Errors and read status (`core/src/lib.rs`, `std::io::Error` kinds) -/

/-- The `std::io::ErrorKind` values the crate produces. -/
inductive ErrKind where
  | invalidData
  | unexpectedEof
  | invalidInput
  deriving Repr, DecidableEq

/-- An `std::io::Error` as produced by the crate: either a kind with a fixed message, or
the magic-number mismatch error, which formats both the observed and the expected magic
into its message (modelled structurally). -/
inductive IoError where
  | simple (kind : ErrKind) (msg : String)
  | magicMismatch (found expected : Bytes)
  deriving Repr, DecidableEq

/-- The `ErrorKind` of an error; a magic mismatch is `InvalidData`. -/
def IoError.kind : IoError → ErrKind
  | .simple k _ => k
  | .magicMismatch _ _ => .invalidData

/-- `ReadStatus` (`core/src/lib.rs`). -/
inductive ReadStatus where
  | done
  | notDone
  deriving Repr, DecidableEq

/-! ### Magic numbers (`saf/src/version.rs`, `src/saf/version.rs`) -/

/-- `V3::MAGIC_NUMBER = [b's', b'a', b'f', b'v', b'3', 0, 0, 0]` (both variants). -/
def v3MagicNumber : Bytes := [115, 97, 102, 118, 51, 0, 0, 0]

/-- `V4::MAGIC_NUMBER` in the primary crate (`saf/src/version.rs:240`):
`[b's', b'a', b'f', b'v', b'4', 0, 0, 0]`. -/
def v4MagicNumber : Bytes := [115, 97, 102, 118, 52, 0, 0, 0]

/-- `V4::MAGIC_NUMBER` in the legacy variant (`src/saf/version.rs:242`):
`[b's', b'a', b'f', b'v', b'3', 0, 0, 0]` — the v3 magic, re-used. -/
def legacyV4MagicNumber : Bytes := [115, 97, 102, 118, 51, 0, 0, 0]

/-- `Version::read_magic`: read 8 bytes (`read_exact`; `UnexpectedEof` if the stream is
shorter) and compare with the expected magic number; on mismatch, fail with an
`InvalidData` error describing both the observed and the expected magic. On success the
rest of the stream is returned. -/
def readMagicBytes (magic : Bytes) (s : Bytes) : Except IoError Bytes :=
  if 8 ≤ s.length then
    if s.take 8 = magic then .ok (s.drop 8)
    else .error (.magicMismatch (s.take 8) magic)
  else .error (.simple .unexpectedEof "failed to fill whole buffer")

/-! ### Path and prefix layer (`saf/src/ext.rs`, `src/saf/writer.rs`) -/

/-- Conventional index file extension (`"saf.idx"`). -/
def INDEX_EXT : List Char := "saf.idx".toList

/-- Conventional positions file extension (`"saf.pos.gz"`). -/
def POSITIONS_FILE_EXT : List Char := "saf.pos.gz".toList

/-- Conventional item file extension (`"saf.gz"`). -/
def ITEM_FILE_EXT : List Char := "saf.gz".toList

/-- The ordered extension list `EXTS` (index extension first). -/
def EXTS : List (List Char) := [INDEX_EXT, POSITIONS_FILE_EXT, ITEM_FILE_EXT]

/-- Rust `str::strip_suffix`: `Some` of the string with the suffix removed when it ends
with the suffix, else `None`. -/
def stripSuffix (s suf : List Char) : Option (List Char) :=
  if suf.isSuffixOf s then some (s.take (s.length - suf.length)) else none

/-- `ext::prefix_from_member_path`: find the first conventional extension that `s` ends
with, strip it, then strip a single trailing `'.'`. -/
def prefixFromMemberPath (s : List Char) : Option (List Char) :=
  ((EXTS.find? (fun ext => ext.isSuffixOf s)).bind (fun ext => stripSuffix s ext)).bind
    (fun stem => stripSuffix stem ['.'])

/-- `ext::member_paths_from_prefix`: the three member paths, each synthesised by
concatenation as `format!("{prefix}.{ext}")`. -/
def memberPathsFromPfx (p : List Char) : List (List Char) :=
  [p ++ '.' :: INDEX_EXT, p ++ '.' :: POSITIONS_FILE_EXT, p ++ '.' :: ITEM_FILE_EXT]

/-- Rust `Path::with_extension`, as used by the legacy variant's
`BgzfWriter::from_bgzf_prefix` (`src/saf/writer.rs:235-237`), modelled for paths whose
final component contains no separator: the portion after the last `'.'` (ignoring a dot
at position 0, per Rust's leading-dot rule) is *replaced* by the new extension. -/
def withExtension (s ext : List Char) : List Char :=
  let stem :=
    match s.reverse.findIdx? (· == '.') with
    | none => s
    | some j => if 1 ≤ s.length - 1 - j then s.take (s.length - 1 - j) else s
  stem ++ '.' :: ext

/-! ### BGZF stream model

The BGZF collaborator is modelled as the spec's abstraction of it: an in-order byte
stream.  A reading stream is a full byte sequence together with a cursor; the virtual
position of a writer is the number of bytes written so far, and `seek` moves the cursor
to a virtual position. -/

/-- A buffered/BGZF byte stream being read: full data plus a cursor. -/
structure BStream where
  data : Bytes
  pos : Nat
  deriving Repr, DecidableEq

/-- The bytes still to be read. -/
def BStream.remaining (s : BStream) : Bytes := s.data.drop s.pos

/-- `ReadStatus::check`: `true` when the stream is at end of file. -/
def BStream.isEof (s : BStream) : Bool := s.remaining.isEmpty

/-- `read_exact` of `n` bytes: `none` when fewer than `n` bytes remain. -/
def BStream.readExact (s : BStream) (n : Nat) : Option (Bytes × BStream) :=
  if n ≤ s.remaining.length then some (s.remaining.take n, ⟨s.data, s.pos + n⟩) else none

/-- `bgzf::Reader::seek` to a virtual position (modelled as a byte offset). -/
def BStream.seek (s : BStream) (vpos : Nat) : BStream := ⟨s.data, vpos⟩

/-- `Version::read_magic` applied to a BGZF stream. -/
def BStream.readMagic (magic : Bytes) (s : BStream) : Except IoError BStream :=
  match s.readExact 8 with
  | none => .error (.simple .unexpectedEof "failed to fill whole buffer")
  | some (bs, s') =>
    if bs = magic then .ok s' else .error (.magicMismatch bs magic)

/-- Group a byte list into 32-bit little-endian words (`read_f32_into::<LE>`; the floats
are carried as bit patterns). -/
def chunk4 : Bytes → List Nat
  | b0 :: b1 :: b2 :: b3 :: rest => fromLe [b0, b1, b2, b3] :: chunk4 rest
  | _ => []

/-- Group a byte list into 64-bit little-endian words (`read_f64_into::<LE>`). -/
def chunk8 : Bytes → List Nat
  | b0 :: b1 :: b2 :: b3 :: b4 :: b5 :: b6 :: b7 :: rest =>
    fromLe [b0, b1, b2, b3, b4, b5, b6, b7] :: chunk8 rest
  | _ => []

/-- `ReaderExt::read_position` (`saf/src/reader/traits.rs`): read up to 4 bytes;
`None` at end of file, `Some` of the little-endian `u32` on a full read, and an
`UnexpectedEof` error on a short (1-3 byte) read. -/
def readPosition (s : BStream) : Except IoError (Option Nat × BStream) :=
  if s.remaining.length = 0 then .ok (none, s)
  else
    match s.readExact 4 with
    | some (bs, s') => .ok (some (fromLe bs), s')
    | none => .error (.simple .unexpectedEof "failed to read position")

/-- `ReaderExt::read_likelihoods` into a buffer of `count` values: `Done` at end of file,
otherwise read exactly `4 * count` bytes (`UnexpectedEof` when fewer remain) and return
the `count` 32-bit words read. -/
def readLikelihoods (s : BStream) (count : Nat) :
    Except IoError (ReadStatus × List Nat × BStream) :=
  if s.remaining.isEmpty then .ok (.done, [], s)
  else
    match s.readExact (4 * count) with
    | some (bs, s') => .ok (.notDone, chunk4 bs, s')
    | none => .error (.simple .unexpectedEof "failed to fill whole buffer")

/-! ### Index data model (`saf/src/index/traits.rs`, index codec from spec §4.D) -/

/-- An in-memory SAF index record.  The v3 codec neither writes nor reads `sumBand`;
for v3 records it is `0`. -/
structure IndexRecord where
  name : Bytes
  sites : Nat
  sumBand : Nat
  positionOffset : Nat
  itemOffset : Nat
  deriving Repr, DecidableEq

/-- The in-memory SAF index. -/
structure Index where
  alleles : Nat
  records : List IndexRecord
  deriving Repr, DecidableEq

/-- Serialisation of a v3 index record
(`V3::write_index_record`): name length, name bytes, sites, position offset, item
offset; integers 8-byte little-endian. -/
def indexRecordBytesV3 (r : IndexRecord) : Bytes :=
  u64le r.name.length ++ r.name ++ u64le r.sites ++ u64le r.positionOffset ++
    u64le r.itemOffset

/-- Serialisation of a v4 index record (`V4::write_index_record`): as v3 with `sum_band`
between sites and the offsets. -/
def indexRecordBytesV4 (r : IndexRecord) : Bytes :=
  u64le r.name.length ++ r.name ++ u64le r.sites ++ u64le r.sumBand ++
    u64le r.positionOffset ++ u64le r.itemOffset

/-- `read_exact` of `n` bytes from a plain (non-BGZF) byte stream, returning the rest. -/
def readBytesN (n : Nat) (s : Bytes) : Except IoError (Bytes × Bytes) :=
  if n ≤ s.length then .ok (s.take n, s.drop n)
  else .error (.simple .unexpectedEof "failed to fill whole buffer")

/-- UTF-8 validity of a byte sequence (`String::from_utf8` succeeds), by the standard
table of well-formed byte sequences. -/
def validUtf8 : Bytes → Bool
  | [] => true
  | b0 :: rest =>
    if b0 < 0x80 then validUtf8 rest
    else if 0xC2 ≤ b0 ∧ b0 ≤ 0xDF then
      match rest with
      | b1 :: rest' => (0x80 ≤ b1 && b1 ≤ 0xBF) && validUtf8 rest'
      | [] => false
    else if b0 = 0xE0 then
      match rest with
      | b1 :: b2 :: rest' =>
        (0xA0 ≤ b1 && b1 ≤ 0xBF) && (0x80 ≤ b2 && b2 ≤ 0xBF) && validUtf8 rest'
      | _ => false
    else if (0xE1 ≤ b0 ∧ b0 ≤ 0xEC) ∨ b0 = 0xEE ∨ b0 = 0xEF then
      match rest with
      | b1 :: b2 :: rest' =>
        (0x80 ≤ b1 && b1 ≤ 0xBF) && (0x80 ≤ b2 && b2 ≤ 0xBF) && validUtf8 rest'
      | _ => false
    else if b0 = 0xED then
      match rest with
      | b1 :: b2 :: rest' =>
        (0x80 ≤ b1 && b1 ≤ 0x9F) && (0x80 ≤ b2 && b2 ≤ 0xBF) && validUtf8 rest'
      | _ => false
    else if b0 = 0xF0 then
      match rest with
      | b1 :: b2 :: b3 :: rest' =>
        (0x90 ≤ b1 && b1 ≤ 0xBF) && (0x80 ≤ b2 && b2 ≤ 0xBF) && (0x80 ≤ b3 && b3 ≤ 0xBF)
          && validUtf8 rest'
      | _ => false
    else if 0xF1 ≤ b0 ∧ b0 ≤ 0xF3 then
      match rest with
      | b1 :: b2 :: b3 :: rest' =>
        (0x80 ≤ b1 && b1 ≤ 0xBF) && (0x80 ≤ b2 && b2 ≤ 0xBF) && (0x80 ≤ b3 && b3 ≤ 0xBF)
          && validUtf8 rest'
      | _ => false
    else if b0 = 0xF4 then
      match rest with
      | b1 :: b2 :: b3 :: rest' =>
        (0x80 ≤ b1 && b1 ≤ 0x8F) && (0x80 ≤ b2 && b2 ≤ 0xBF) && (0x80 ≤ b3 && b3 ≤ 0xBF)
          && validUtf8 rest'
      | _ => false
    else false

/-- `IndexReaderExt::read_contig_name` followed by the remaining field reads of
`V3::read_index_record`: name length, name (checked for UTF-8 validity), sites,
position offset, item offset. -/
def parseIndexRecordV3 (s : Bytes) : Except IoError (IndexRecord × Bytes) :=
  match readBytesN 8 s with
  | .error e => .error e
  | .ok (nameLenB, s1) =>
    match readBytesN (fromLe nameLenB) s1 with
    | .error e => .error e
    | .ok (name, s2) =>
      if validUtf8 name then
        match readBytesN 8 s2 with
        | .error e => .error e
        | .ok (sitesB, s3) =>
          match readBytesN 8 s3 with
          | .error e => .error e
          | .ok (posOffB, s4) =>
            match readBytesN 8 s4 with
            | .error e => .error e
            | .ok (itemOffB, s5) =>
              .ok (⟨name, fromLe sitesB, 0, fromLe posOffB, fromLe itemOffB⟩, s5)
      else .error (.simple .invalidData "index record name not valid UTF8")

/-- Modelled from the spec: the record loop of `Index::read` (the primary crate's
`saf/src/index.rs` is not among the sources; spec §4.D: "Sequence of IndexRecord until
EOF", "The reader treats 'no further bytes' as end-of-records").  The fuel argument
bounds the iteration count; every iteration consumes at least 32 bytes, so fuel equal to
the stream length always suffices. -/
def parseIndexRecordsV3 (fuel : Nat) (s : Bytes) : Except IoError (List IndexRecord) :=
  if s.isEmpty then .ok []
  else
    match fuel with
    | 0 => .error (.simple .invalidData "iteration bound exhausted")
    | fuel + 1 =>
      match parseIndexRecordV3 s with
      | .error e => .error e
      | .ok (r, s') =>
        match parseIndexRecordsV3 fuel s' with
        | .error e => .error e
        | .ok rs => .ok (r :: rs)

/-- Modelled from the spec: `Index::read` for v3 (`saf/src/index.rs` is not among the
sources; spec §4.D gives the layout: magic bytes, alleles, records until EOF). -/
def readIndexV3 (s : Bytes) : Except IoError Index :=
  match readMagicBytes v3MagicNumber s with
  | .error e => .error e
  | .ok s1 =>
    match readBytesN 8 s1 with
    | .error e => .error e
    | .ok (allelesB, s2) =>
      match parseIndexRecordsV3 s2.length s2 with
      | .error e => .error e
      | .ok records => .ok ⟨fromLe allelesB, records⟩

/-! ### Single-cursor SAF reader (`saf/src/reader.rs`) -/

/-- `reader::Location`: the index plus the current contig and the number of sites left to
read on it. -/
structure Location where
  index : Index
  contigId : Nat
  sitesLeft : Nat
  deriving Repr, DecidableEq

/-- `Location::contig_is_finished`. -/
def Location.contigIsFinished (l : Location) : Bool := l.sitesLeft = 0

/-- `Location::set_contig`: assigns `contig_id`, then looks the record up; on a missing
record the `?` operator returns early, so `sites_left_on_contig` keeps its old value but
the assignment of `contig_id` has already happened. -/
def Location.setContig (l : Location) (cid : Nat) : Option Unit × Location :=
  match l.index.records[cid]? with
  | some r => (some (), { l with contigId := cid, sitesLeft := r.sites })
  | none => (none, { l with contigId := cid })

/-- `Location::nextContig`. -/
def Location.nextContig (l : Location) : Option Unit × Location :=
  l.setContig (l.contigId + 1)

/-- `Location::setup`: location at the first site of the first contig; `none` if the
index has no records. -/
def Location.setup (index : Index) : Option Location :=
  (index.records.head?).map fun r => ⟨index, 0, r.sites⟩

/-- The SAF reader (`Reader<R, V>` with `V = V3`): location plus the two BGZF streams. -/
structure SafReader where
  location : Location
  positionReader : BStream
  itemReader : BStream
  deriving Repr, DecidableEq

/-- A read-side SAF record `Record<Id, Likelihoods>`: contig id into the index, 1-based
position, and the likelihood words. -/
structure SafRecordRead where
  contigId : Nat
  position : Nat
  item : List Nat
  deriving Repr, DecidableEq

/-- Result of `Reader::read_record`: `Done`, or a record together with the advanced
reader. -/
inductive ReadResult where
  | done (st : SafReader)
  | record (r : SafRecordRead) (st : SafReader)
  deriving Repr, DecidableEq

/-- `Reader::read_record` for v3 (`saf/src/reader.rs:175-215`).  The branch condition is
`!self.location.contig_is_finished() || self.location.next_contig().is_some()`:
`next_contig` is evaluated (and mutates the location) only when the current contig is
finished.  On the data path the position is read first, then the item; the four
(position, item) outcomes map to a successful record or the three `UnexpectedEof`
errors.  When the index is exhausted both streams are checked for EOF; residual bytes
are `InvalidData` errors.

The location part of the branch condition is split out as `advanceLocation` below. -/
def SafReader.advanceLocation (st : SafReader) : Bool × Location :=
  if st.location.contigIsFinished then
    match st.location.nextContig with
    | (some _, l') => (true, l')
    | (none, l') => (false, l')
  else (true, st.location)

/-- `Reader::read_record` for v3; see `advanceLocation` for the description. -/
def SafReader.readRecordV3 (st : SafReader) : Except IoError ReadResult :=
  let (proceed, loc) := st.advanceLocation
  if proceed then
    match readPosition st.positionReader with
    | .error e => .error e
    | .ok (posOpt, ps') =>
      match readLikelihoods st.itemReader (loc.index.alleles + 1) with
      | .error e => .error e
      | .ok (status, item, is') =>
        match posOpt, status with
        | some pos, .notDone =>
          .ok (.record ⟨loc.contigId, pos, item⟩
            { location := { loc with sitesLeft := loc.sitesLeft - 1 },
              positionReader := ps', itemReader := is' })
        | some _, .done =>
          .error (.simple .unexpectedEof
            "reached EoF in SAF position file before reaching EoF in SAF item file")
        | none, .notDone =>
          .error (.simple .unexpectedEof
            "reached EoF in SAF item file before reaching EoF in SAF position file")
        | none, .done =>
          .error (.simple .unexpectedEof
            "reached EoF in both SAF files before reaching end of index")
  else
    match st.positionReader.isEof, st.itemReader.isEof with
    | true, true => .ok (.done { st with location := loc })
    | true, false =>
      .error (.simple .invalidData
        "reached end of index before reaching EoF in SAF position file")
    | false, true =>
      .error (.simple .invalidData
        "reached end of index before reaching EoF in SAF item file")
    | false, false =>
      .error (.simple .invalidData
        "reached end of index before reaching EoF in both SAF files")

/-- `Reader::seek` (`saf/src/reader.rs:239-255`): `set_contig` with `expect` (an
out-of-range contig id panics, modelled as `none`), then seek both streams to the stored
offsets. -/
def SafReader.seek (st : SafReader) (contigId : Nat) : Option SafReader :=
  match st.location.index.records[contigId]? with
  | none => none
  | some r =>
    some { st with
      location := { st.location with contigId := contigId, sitesLeft := r.sites },
      positionReader := st.positionReader.seek r.positionOffset,
      itemReader := st.itemReader.seek r.itemOffset }

/-- `Reader::seek_by_name` (`saf/src/reader.rs:266-275`): linear search for the name
(`expect`: an absent name panics, modelled as `none`), then `seek`. -/
def SafReader.seekByName (st : SafReader) (name : Bytes) : Option SafReader :=
  match st.location.index.records.findIdx? (fun r => r.name = name) with
  | some contigId => st.seek contigId
  | none => none

/-- The reader's branch condition: the index is exhausted when the current contig is
finished and no further contig exists. -/
def SafReader.indexExhausted (st : SafReader) : Prop :=
  st.location.sitesLeft = 0 ∧
    st.location.index.records[st.location.contigId + 1]? = none

instance (st : SafReader) : Decidable st.indexExhausted := by
  unfold SafReader.indexExhausted
  infer_instance

/-! ### GLF reader (`glf/src/reader.rs`) -/

/-- `read_record_unchecked`: `read_f64_into::<Endian>` over the 10-value record buffer,
i.e. `read_exact` of 80 bytes (an `UnexpectedEof` error when fewer remain) decoded as 10
little-endian 64-bit words. -/
def glfReadRecordUnchecked (s : BStream) : Except IoError (List Nat × BStream) :=
  match s.readExact 80 with
  | some (bs, s') => .ok (chunk8 bs, s')
  | none => .error (.simple .unexpectedEof "failed to fill whole buffer")

/-- The record loop of `Reader::read_records`: one unchecked read per buffer slot. -/
def glfReadRecordsGo : Nat → BStream → Except IoError (List (List Nat) × BStream)
  | 0, s => .ok ([], s)
  | n + 1, s =>
    match glfReadRecordUnchecked s with
    | .error e => .error e
    | .ok (r, s') =>
      match glfReadRecordsGo n s' with
      | .error e => .error e
      | .ok (rs, s'') => .ok (r :: rs, s'')

/-- `Reader::read_records` (`glf/src/reader.rs:63-73`): check for end of stream once,
before the first record; then read every record of the slice unchecked. -/
def glfReadRecords (n : Nat) (s : BStream) :
    Except IoError (ReadStatus × List (List Nat) × BStream) :=
  if s.remaining.isEmpty then .ok (.done, [], s)
  else
    match glfReadRecordsGo n s with
    | .error e => .error e
    | .ok (rs, s') => .ok (.notDone, rs, s')

/-! ### SAF writer (`saf/src/version.rs` `V3::write_record` / `V4::write_record`; the
writer struct, its initialisation and `finish` follow spec §4.G since the primary
crate's `saf/src/writer.rs` is not among the sources) -/

/-- The SAF writer state: the bytes written so far to each of the three streams, plus
the pending index record.  A BGZF writer's `virtual_position()` is the length of the
bytes written so far. -/
structure SafWriter where
  indexWriter : Bytes
  positionWriter : Bytes
  itemWriter : Bytes
  indexRecord : Option IndexRecord
  deriving Repr, DecidableEq

/-- A write-side v3 SAF record `Record<I, Likelihoods>`: contig name (UTF-8 bytes),
1-based position, likelihood words. -/
structure SafRecordWrite where
  contigId : Bytes
  position : Nat
  item : List Nat
  deriving Repr, DecidableEq

/-- A write-side v4 SAF record `Record<I, Band>`. -/
structure SafRecordWriteV4 where
  contigId : Bytes
  position : Nat
  item : Band
  deriving Repr, DecidableEq

/-- `WriterExt::write_likelihoods`: each value as 4 little-endian bytes. -/
def likelihoodBytes (item : List Nat) : Bytes := (item.map u32le).flatten

/-- `WriterExt::write_band`: band start and length as `u32` (`u32::try_from` with
`expect` — a start or length not fitting `u32` panics, modelled as `none`), then the
band likelihoods. -/
def bandBytes (b : Band) : Option Bytes :=
  if b.start < 2 ^ 32 ∧ b.likelihoods.length < 2 ^ 32 then
    some (u32le b.start ++ u32le b.likelihoods.length ++ likelihoodBytes b.likelihoods)
  else none

/-- The final data writes shared by every `write_record` branch: the position as
`u32` little-endian to the position stream, the item to the item stream. -/
def writeDataV3 (st : SafWriter) (r : SafRecordWrite) : SafWriter :=
  { st with
    positionWriter := st.positionWriter ++ u32le r.position,
    itemWriter := st.itemWriter ++ likelihoodBytes r.item }

/-- The branch of `V3::write_record` taken when a pending index record `pr` exists
(`saf/src/version.rs:196-211`): on the same contig increment `sites`; on a new contig
snapshot both virtual positions, write the pending record to the index stream, and start
a fresh pending record with `sites = 1`.  Afterwards write the record data. -/
def writeRecordV3Go (st : SafWriter) (pr : IndexRecord) (r : SafRecordWrite) : SafWriter :=
  if pr.name = r.contigId then
    writeDataV3 { st with indexRecord := some { pr with sites := pr.sites + 1 } } r
  else
    let positionOffset := st.positionWriter.length
    let itemOffset := st.itemWriter.length
    writeDataV3
      { st with
        indexRecord := some ⟨r.contigId, 1, 0, positionOffset, itemOffset⟩,
        indexWriter := st.indexWriter ++ indexRecordBytesV3 pr } r

/-- `V3::write_record` (`saf/src/version.rs:186-225`): with no pending index record, a
pending record with `sites = 0` and offsets equal to the magic number length is
installed and the call recurses, landing in the same-contig branch. -/
def writeRecordV3 (st : SafWriter) (r : SafRecordWrite) : SafWriter :=
  match st.indexRecord with
  | some pr => writeRecordV3Go st pr r
  | none =>
    writeRecordV3Go { st with indexRecord := some ⟨r.contigId, 0, 0, 8, 8⟩ }
      ⟨r.contigId, 0, 0, 8, 8⟩ r

/-- The data writes of `V4::write_record`; `none` models the `write_band` panic. -/
def writeDataV4 (st : SafWriter) (r : SafRecordWriteV4) : Option SafWriter :=
  (bandBytes r.item).map fun bb =>
    { st with
      positionWriter := st.positionWriter ++ u32le r.position,
      itemWriter := st.itemWriter ++ bb }

/-- The branch of `V4::write_record` taken when a pending index record `pr` exists
(`saf/src/version.rs:321-342`): on the same contig add the band length to `sum_band` and
increment `sites`; on a new contig snapshot both virtual positions, write the pending
record out, and start a fresh pending record via
`index::Record::new_with_sum_band(contig, 1, 0, position_offset, item_offset)` —
`sites = 1` and `sum_band = 0`. -/
def writeRecordV4Go (st : SafWriter) (pr : IndexRecord) (r : SafRecordWriteV4) :
    Option SafWriter :=
  if pr.name = r.contigId then
    writeDataV4
      { st with
        indexRecord := some
          { pr with
            sumBand := pr.sumBand + r.item.likelihoods.length,
            sites := pr.sites + 1 } } r
  else
    let positionOffset := st.positionWriter.length
    let itemOffset := st.itemWriter.length
    writeDataV4
      { st with
        indexRecord := some ⟨r.contigId, 1, 0, positionOffset, itemOffset⟩,
        indexWriter := st.indexWriter ++ indexRecordBytesV4 pr } r

/-- `V4::write_record` (`saf/src/version.rs:311-357`). -/
def writeRecordV4 (st : SafWriter) (r : SafRecordWriteV4) : Option SafWriter :=
  match st.indexRecord with
  | some pr => writeRecordV4Go st pr r
  | none =>
    writeRecordV4Go { st with indexRecord := some ⟨r.contigId, 0, 0, 8, 8⟩ }
      ⟨r.contigId, 0, 0, 8, 8⟩ r

/-- Modelled from the spec: writer initialisation (`saf/src/writer.rs` is not among the
sources; spec §4.G: magic bytes are written to the index stream and to the two BGZF
streams, the alleles value to the index stream immediately after its magic bytes). -/
def initWriterV3 (alleles : Nat) : SafWriter :=
  ⟨v3MagicNumber ++ u64le alleles, v3MagicNumber, v3MagicNumber, none⟩

/-- Modelled from the spec: v4 writer initialisation, as `initWriterV3` with the v4
magic number. -/
def initWriterV4 (alleles : Nat) : SafWriter :=
  ⟨v4MagicNumber ++ u64le alleles, v4MagicNumber, v4MagicNumber, none⟩

/-- Modelled from the spec: `Writer::finish` for v3 (`saf/src/writer.rs` is not among
the sources; spec §4.G: flush the pending index record if any, finish both BGZF streams,
return the three underlying writers). -/
def finishV3 (st : SafWriter) : Bytes × Bytes × Bytes :=
  match st.indexRecord with
  | some pr => (st.indexWriter ++ indexRecordBytesV3 pr, st.positionWriter, st.itemWriter)
  | none => (st.indexWriter, st.positionWriter, st.itemWriter)

/-- Write a whole record sequence with the v3 writer and finish. -/
def writeAllV3 (alleles : Nat) (rs : List SafRecordWrite) : Bytes × Bytes × Bytes :=
  finishV3 (rs.foldl writeRecordV3 (initWriterV3 alleles))

/-! ### Round-trip development (claim C1): grouped write input -/

/-- A contiguous group of same-contig v3 write records: the contig name and the
(position, likelihoods) pairs written on it. -/
structure SafBlock where
  name : Bytes
  recs : List (Nat × List Nat)
  deriving Repr, DecidableEq

/-- The write records of one block. -/
def SafBlock.toRecords (b : SafBlock) : List SafRecordWrite :=
  b.recs.map fun pr => ⟨b.name, pr.1, pr.2⟩

/-- A grouped sequence, flattened to the record sequence handed to the writer. -/
def flattenBlocks (blocks : List SafBlock) : List SafRecordWrite :=
  (blocks.map SafBlock.toRecords).flatten

/-- The bytes a block contributes to the positions stream. -/
def blockPosBytes (b : SafBlock) : Bytes := (b.recs.map fun pr => u32le pr.1).flatten

/-- The bytes a block contributes to the items stream. -/
def blockItemBytes (b : SafBlock) : Bytes :=
  (b.recs.map fun pr => likelihoodBytes pr.2).flatten

/-- The positions-stream payload of a block sequence (everything after the magic). -/
def posPayload (blocks : List SafBlock) : Bytes := (blocks.map blockPosBytes).flatten

/-- The items-stream payload of a block sequence (everything after the magic). -/
def itemPayload (blocks : List SafBlock) : Bytes := (blocks.map blockItemBytes).flatten

/-- The index records the writer produces for a block sequence, given the initial
virtual positions of the two streams. -/
def expectedRecsGo (pOff iOff : Nat) : List SafBlock → List IndexRecord
  | [] => []
  | b :: rest =>
    ⟨b.name, b.recs.length, 0, pOff, iOff⟩ ::
      expectedRecsGo (pOff + (blockPosBytes b).length) (iOff + (blockItemBytes b).length) rest

/-- The index records the writer produces: both streams start at the magic length 8. -/
def expectedRecs (blocks : List SafBlock) : List IndexRecord := expectedRecsGo 8 8 blocks

/-- Total number of sites in a block sequence. -/
def sitesTotal (blocks : List SafBlock) : Nat := (blocks.map fun b => b.recs.length).sum

/-- The read records the reader yields for a block sequence whose first block has contig
id `j`. -/
def expectedReadsGo (j : Nat) : List SafBlock → List SafRecordRead
  | [] => []
  | b :: rest =>
    (b.recs.map fun pr => ⟨j, pr.1, pr.2⟩) ++ expectedReadsGo (j + 1) rest

/-- `Record::to_named`: name a read record's contig id via the index (a panic on an
out-of-range id is modelled as `none`). -/
def toNamed (idx : Index) (r : SafRecordRead) : Option SafRecordWrite :=
  (idx.records[r.contigId]?).map fun ir => ⟨ir.name, r.position, r.item⟩

/-- Validity of a grouped v3 input sequence: the sequence is non-empty, every block has
at least one record, names are valid UTF-8 and pairwise distinct, positions fit `u32`,
likelihood vectors have length `alleles + 1` with values that fit 32 bits (f32 bit
patterns), and the on-disk `u64` fields fit 64 bits. -/
def ValidBlocksV3 (alleles : Nat) (blocks : List SafBlock) : Prop :=
  blocks ≠ [] ∧
  (∀ b ∈ blocks, b.recs ≠ [] ∧ validUtf8 b.name = true ∧ b.name.length < 2 ^ 64 ∧
    b.recs.length < 2 ^ 64 ∧
    ∀ pr ∈ b.recs, pr.1 < 2 ^ 32 ∧ pr.2.length = alleles + 1 ∧ ∀ w ∈ pr.2, w < 2 ^ 32) ∧
  (blocks.map SafBlock.name).Pairwise (· ≠ ·) ∧
  alleles < 2 ^ 64 ∧
  8 + (posPayload blocks).length < 2 ^ 64 ∧
  8 + (itemPayload blocks).length < 2 ^ 64

/-- `Reader::from_paths` over in-memory bytes (`saf/src/reader.rs:311-326` together
with the spec-modelled `Index::read`): read the index, construct the reader (an empty
index is `InvalidData`), and read both magic numbers. -/
def fromBytesV3 (idxBytes posData itemData : Bytes) : Except IoError SafReader :=
  match readIndexV3 idxBytes with
  | .error e => .error e
  | .ok idx =>
    match Location.setup idx with
    | none => .error (.simple .invalidData "SAF index contains no records")
    | some loc =>
      match BStream.readMagic v3MagicNumber ⟨posData, 0⟩ with
      | .error e => .error e
      | .ok ps =>
        match BStream.readMagic v3MagicNumber ⟨itemData, 0⟩ with
        | .error e => .error e
        | .ok js => .ok ⟨loc, ps, js⟩

/-- Drive `read_record` until `Done`, collecting the records read.  Fuel exhaustion is
an error distinct from anything the reader produces, so an `ok` result certifies that
the reader returned `Done` by itself. -/
def drainV3 : Nat → SafReader → Except IoError (List SafRecordRead)
  | 0, _ => .error (.simple .invalidInput "iteration bound exhausted")
  | n + 1, st =>
    match st.readRecordV3 with
    | .error e => .error e
    | .ok (.done _) => .ok []
    | .ok (.record r st') =>
      match drainV3 n st' with
      | .error e => .error e
      | .ok rs => .ok (r :: rs)

/-- A concrete two-contig grouped sequence used to witness the round-trip theorem. -/
def sampleBlocks : List SafBlock :=
  [⟨[99, 104, 114, 49], [(1, [7, 8])]⟩, ⟨[99, 104, 114, 50], [(2, [9, 10])]⟩]

/-! ### N-way intersection cursor (`saf/src/reader/intersect.rs`), over the byte-level
v3 readers -/

/-- The insertion-ordered map underlying `SharedContigs`: contig name to the contig's id
in each constituent reader. -/
abbrev SharedContigs := List (Bytes × List Nat)

/-- `IndexMap` insertion: a duplicate key keeps its original position and replaces its
value; a new key goes last. -/
def imInsert (m : List (Bytes × List Nat)) (k : Bytes) (v : List Nat) :
    List (Bytes × List Nat) :=
  if m.any (fun e => e.1 = k) then m.map (fun e => if e.1 = k then (k, v) else e)
  else m ++ [(k, v)]

/-- `SharedContigs::from(&Index)`: seed the table from the first reader's index. -/
def scFromIndex (idx : Index) : SharedContigs :=
  (idx.records.enum.map (fun e => (e.2.name, [e.1]))).foldl
    (fun m e => imInsert m e.1 e.2) []

/-- `IndexMap` insertion for the temporary name-to-id map of `add_index` (same
replace-on-duplicate semantics as `imInsert`). -/
def imInsertId (m : List (Bytes × Nat)) (k : Bytes) (v : Nat) : List (Bytes × Nat) :=
  if m.any (fun e => e.1 = k) then m.map (fun e => if e.1 = k then (k, v) else e)
  else m ++ [(k, v)]

/-- `SharedContigs::add_index`: build a temporary name-to-id map for the new index, then
retain only the shared names, pushing the new index's id. -/
def scAddIndex (sc : SharedContigs) (idx : Index) : SharedContigs :=
  let tmp := (idx.records.enum.map (fun e => (e.2.name, e.1))).foldl
    (fun m e => imInsertId m e.1 e.2) []
  sc.filterMap fun e =>
    match (tmp.find? (fun t => t.1 = e.1)).map (fun t => t.2) with
    | some newId => some (e.1, e.2 ++ [newId])
    | none => none

/-- `SharedContigs::next_shared`: the index in the table of the first contig of `idx`
with id at or after `id` whose name is shared; `none` when no shared contig remains (the
unreachable out-of-range record lookup is also `none`). -/
def scNextShared (sc : SharedContigs) (idx : Index) (id : Nat) : Option Nat :=
  match idx.records[id]? with
  | none => none
  | some r =>
    match sc.findIdx? (fun e => e.1 = r.name) with
    | some i => some i
    | none =>
      (idx.records.drop (id + 1)).findSome? (fun rec =>
        sc.findIdx? (fun e => e.1 = rec.name))

/-- One intersection slot: a reader, its record buffer, and its entry of `self.ids`. -/
abbrev ISlot := SafReader × SafRecordRead × Nat

/-- Result of the leading per-reader reads of `Intersect::read_records`. -/
inductive Step1Out where
  | done
  | fail
  | ok (slots : List ISlot)
  deriving Repr

/-- The leading loop of `Intersect::read_records`: read one record from each reader; if
any reader is `Done`, the whole call returns `Done`; each `ids` entry is set to the
contig id just read.  `fail` models an I/O error. -/
def istep1 : List SafReader → Step1Out
  | [] => .ok []
  | r :: rest =>
    match r.readRecordV3 with
    | .error _ => .fail
    | .ok (.done _) => .done
    | .ok (.record rec r') =>
      match istep1 rest with
      | .fail => .fail
      | .done => .done
      | .ok slots => .ok ((r', rec, rec.contigId) :: slots)

/-- The first loop of `read_until_shared_contig`: the greatest `next_shared` table index
over all readers; `none` (Done) as soon as a reader has no shared contig left. -/
def computeNextIdx (sc : SharedContigs) : List ISlot → Nat → Option Nat
  | [], acc => some acc
  | (r, buf, _) :: rest, acc =>
    match scNextShared sc r.location.index buf.contigId with
    | none => none
    | some idx => computeNextIdx sc rest (if acc < idx then idx else acc)

/-- The second loop of `read_until_shared_contig`: seek every reader that is not already
on the candidate shared contig to its id for that contig and read one record (the read
status is discarded, as in the source); `none` models a panic or I/O error. -/
def ruscSeek : List ISlot → List Nat → Option (List ISlot)
  | slots, [] => some slots
  | [], _ => some []
  | (r, buf, id) :: rest, nextId :: moreIds =>
    if buf.contigId ≠ nextId then
      match r.seek nextId with
      | none => none
      | some r1 =>
        match r1.readRecordV3 with
        | .error _ => none
        | .ok (.done r2) => (ruscSeek rest moreIds).map ((r2, buf, nextId) :: ·)
        | .ok (.record rec r2) => (ruscSeek rest moreIds).map ((r2, rec, nextId) :: ·)
    else (ruscSeek rest moreIds).map ((r, buf, id) :: ·)

/-- Outcome of the forward-advance `while` loop inside
`read_until_shared_position_on_contig`. -/
inductive AdvOut where
  | done
  | fail
  | realign (s : ISlot)
  | reached (s : ISlot)
  deriving Repr

/-- The `while pos < max_pos` loop: keep reading; `Done` ends the whole call; a contig
change updates the slot's id and raises the re-align sentinel. -/
def advL : Nat → SafReader → SafRecordRead → Nat → Nat → AdvOut
  | fuel, r, buf, id, maxPos =>
    if buf.position < maxPos then
      match fuel with
      | 0 => .fail
      | fuel + 1 =>
        match r.readRecordV3 with
        | .error _ => .fail
        | .ok (.done _) => .done
        | .ok (.record rec r') =>
          if rec.contigId ≠ id then .realign (r', rec, rec.contigId)
          else advL fuel r' rec id maxPos
    else .reached (r, buf, id)

/-- Outcome of the `'outer`/`'inner` scan of `read_until_shared_position_on_contig`. -/
inductive ScanOut where
  | found (slots : List ISlot)
  | realign (slots : List ISlot)
  | done
  | fail
  deriving Repr

/-- The `'outer` loop: scan the slots left to right; a position equal to `max_pos`
passes; a greater one raises `max_pos` and restarts the scan; a smaller one advances
that reader (restarting on overshoot).  When every slot passes, an intersection is
found.  Fuel decreases on every step; exhaustion is `fail`, never `done`. -/
def scan : Nat → Nat → List ISlot → List ISlot → ScanOut
  | 0, _, _, _ => .fail
  | fuel + 1, maxPos, acc, todo =>
    match todo with
    | [] => .found acc
    | (r, buf, id) :: rest =>
      if buf.position = maxPos then scan fuel maxPos (acc ++ [(r, buf, id)]) rest
      else if maxPos < buf.position then
        scan fuel buf.position [] (acc ++ (r, buf, id) :: rest)
      else
        match advL fuel r buf id maxPos with
        | .fail => .fail
        | .done => .done
        | .realign s => .realign (acc ++ s :: rest)
        | .reached (r', buf', id') =>
          if buf'.position = maxPos then scan fuel maxPos (acc ++ [(r', buf', id')]) rest
          else scan fuel maxPos [] (acc ++ (r', buf', id') :: rest)

/-- Result of one `Intersect::read_records` call. -/
inductive IOut where
  | done
  | fail
  | tuple (bufs : List SafRecordRead) (readers : List SafReader)
  deriving Repr

/-- `Intersect::read_records` (`saf/src/reader/intersect.rs:96-119`): the leading reads,
`read_until_shared_contig`, `read_until_shared_position_on_contig`, and on the re-align
sentinel the tail-recursive restart of the whole call (whose leading reads overwrite
every buffer). -/
def irr : Nat → List SafReader → SharedContigs → IOut
  | 0, _, _ => .fail
  | fuel + 1, readers, sc =>
    match istep1 readers with
    | .fail => .fail
    | .done => .done
    | .ok slots =>
      match computeNextIdx sc slots 0 with
      | none => .done
      | some nextIdx =>
        match sc[nextIdx]? with
        | none => .fail
        | some entry =>
          match ruscSeek slots entry.2 with
          | none => .fail
          | some slots2 =>
            match slots2 with
            | [] => .fail
            | s0 :: srest =>
              match scan (fuel + 1) (srest.foldl (fun m s => max m s.2.1.position)
                  s0.2.1.position) [] slots2 with
              | .fail => .fail
              | .done => .done
              | .found slots3 =>
                .tuple (slots3.map fun s => s.2.1) (slots3.map fun s => s.1)
              | .realign slots3 => irr fuel (slots3.map fun s => s.1) sc

/-- Drive `read_records` until `Done`, collecting the yielded tuples; `none` on fuel
exhaustion or error, so a `some` result certifies a genuine `Done`. -/
def idrain : Nat → List SafReader → SharedContigs → Option (List (List SafRecordRead))
  | 0, _, _ => none
  | fuel + 1, readers, sc =>
    match irr (fuel + 1) readers sc with
    | .fail => none
    | .done => some []
    | .tuple bufs readers' => (idrain fuel readers' sc).map (bufs :: ·)

/-- The record of the site `(c, p)` in a grouped sequence, as the read-side record
`(contig id, position, item)`, when present. -/
def siteItem (blocks : List SafBlock) (c : Bytes) (p : Nat) : Option SafRecordRead :=
  match blocks.findIdx? (fun b => b.name = c) with
  | none => none
  | some i =>
    match blocks[i]? with
    | none => none
    | some b => (b.recs.find? (fun pr => pr.1 = p)).map (fun pr => ⟨i, p, pr.2⟩)

/-- The tuples the claim (and spec §8) require of the intersection: for each site of the
first stream, in order, the k-tuple of each reader's record at that (contig name,
position), kept exactly when every reader has it. -/
def claimedIntersection (bl : List (List SafBlock)) : List (List SafRecordRead) :=
  match bl with
  | [] => []
  | b1 :: _ =>
    ((b1.map (fun b => b.recs.map (fun pr => (b.name, pr.1)))).flatten).filterMap
      (fun cp => bl.mapM (fun blocks => siteItem blocks cp.1 cp.2))

/-- First failing stream: contig `A` (byte 65) at positions 1, 5; contig `U` (byte 85)
at positions 1, 2 (items all `[0, 0]`, `alleles = 1`). -/
def c2BlocksA : List SafBlock :=
  [⟨[65], [(1, [0, 0]), (5, [0, 0])]⟩, ⟨[85], [(1, [0, 0]), (2, [0, 0])]⟩]

/-- Second failing stream: contig `A` at position 2; contig `U` at positions 1, 2. -/
def c2BlocksB : List SafBlock :=
  [⟨[65], [(2, [0, 0])]⟩, ⟨[85], [(1, [0, 0]), (2, [0, 0])]⟩]

/-- `Intersect::new` (`saf/src/reader/intersect.rs:69-87`): the shared-contig table from
the first reader's index, extended by every further index; an empty collection panics
(`none`). -/
def scNew : List SafReader → Option SharedContigs
  | [] => none
  | fst :: tl =>
    some (tl.foldl (fun sc r => scAddIndex sc r.location.index)
      (scFromIndex fst.location.index))

/-- Strict increase along a list of naturals. -/
def strictlyIncreasing : List Nat → Bool
  | [] => true
  | [_] => true
  | a :: b :: rest => decide (a < b) && strictlyIncreasing (b :: rest)

/-- Strictly increasing positions within every block of a grouped sequence. -/
def strictPositions (blocks : List SafBlock) : Bool :=
  blocks.all fun b => strictlyIncreasing (b.recs.map fun pr => pr.1)

theorem leBytes_length (w n : Nat) : (leBytes w n).length = w := by
  induction w generalizing n with
  | zero => rfl
  | succ w ih => simp [leBytes, ih]

theorem fromLe_leBytes (w n : Nat) (h : n < 256 ^ w) : fromLe (leBytes w n) = n := by
  induction w generalizing n with
  | zero =>
    simp only [pow_zero, Nat.lt_one_iff] at h
    simp [h, leBytes, fromLe]
  | succ w ih =>
    have hdiv : n / 256 < 256 ^ w := by
      apply Nat.div_lt_of_lt_mul
      calc n < 256 ^ (w + 1) := h
        _ = 256 * 256 ^ w := by ring
    have := ih (n / 256) hdiv
    simp only [leBytes, fromLe, List.foldr] at this ⊢
    omega

theorem u32le_length (n : Nat) : (u32le n).length = 4 := leBytes_length 4 n

theorem u64le_length (n : Nat) : (u64le n).length = 8 := leBytes_length 8 n

theorem fromLe_u32le (n : Nat) (h : n < 2 ^ 32) : fromLe (u32le n) = n :=
  fromLe_leBytes 4 n (by norm_num at h ⊢; omega)

theorem fromLe_u64le (n : Nat) (h : n < 2 ^ 64) : fromLe (u64le n) = n :=
  fromLe_leBytes 8 n (by norm_num at h ⊢; omega)

theorem Band.intoFull_eq (b : Band) (alleles fill : Nat)
    (h : b.start + b.likelihoods.length ≤ alleles + 1) :
    b.intoFull alleles fill =
      some (List.replicate b.start fill ++ b.likelihoods ++
        List.replicate (alleles + 1 - (b.start + b.likelihoods.length)) fill) := by
  unfold Band.intoFull
  rw [if_pos (by simpa using h)]
  simp

/-- Claim C7: for every Band `(start, vals)`, every `alleles` with
`alleles ≥ start + len(vals) - 1` (stated as `start + len(vals) ≤ alleles + 1`, which is
equivalent over the integers), and every fill value `f`, `into_full(alleles, f)` returns a
likelihood vector of length `alleles + 1` whose entries at indices
`start..start + len(vals)` equal `vals` in order and whose entries at all other indices
equal `f`. -/
theorem C7_band_into_full (b : Band) (alleles fill : Nat)
    (h : b.start + b.likelihoods.length ≤ alleles + 1) :
    ∃ V, b.intoFull alleles fill = some V ∧
      V.length = alleles + 1 ∧
      (∀ i, i < b.likelihoods.length → V[b.start + i]? = b.likelihoods[i]?) ∧
      (∀ j, j < alleles + 1 → (j < b.start ∨ b.start + b.likelihoods.length ≤ j) →
        V[j]? = some fill) := by
  refine ⟨_, Band.intoFull_eq b alleles fill h, ?_, ?_, ?_⟩
  · simp only [List.length_append, List.length_replicate]
    omega
  · intro i hi
    rw [List.getElem?_append]
    rw [if_pos (by simp; omega)]
    rw [List.getElem?_append]
    rw [if_neg (by simp)]
    simp
  · intro j hj hside
    rcases hside with hlt | hge
    · rw [List.getElem?_append, if_pos (by simp; omega), List.getElem?_append,
        if_pos (by simpa using hlt)]
      simp [List.getElem?_replicate, hlt]
    · rw [List.getElem?_append, if_neg (by simp; omega)]
      have : j - (List.replicate b.start fill ++ b.likelihoods).length <
          alleles + 1 - (b.start + b.likelihoods.length) := by
        simp only [List.length_append, List.length_replicate]
        omega
      simp only [List.getElem?_replicate, if_pos this]

/-- Witness for claim C7: the C7 statement instantiated at the concrete in-bounds input
`Band.mk 2 [5, 6]`, `alleles = 4`, `fill = 9`, with the hypothesis discharged by
computation. -/
theorem C7_band_into_full_witness :
    ∃ V, (Band.mk 2 [5, 6]).intoFull 4 9 = some V ∧
      V.length = 4 + 1 ∧
      (∀ i, i < (Band.mk 2 [5, 6]).likelihoods.length →
        V[(Band.mk 2 [5, 6]).start + i]? = (Band.mk 2 [5, 6]).likelihoods[i]?) ∧
      (∀ j, j < 4 + 1 →
        (j < (Band.mk 2 [5, 6]).start ∨
          (Band.mk 2 [5, 6]).start + (Band.mk 2 [5, 6]).likelihoods.length ≤ j) →
        V[j]? = some 9) :=
  C7_band_into_full (Band.mk 2 [5, 6]) 4 9 (by decide)

/-- Claim C9: `Band::into_full(alleles, fill)` fails to return (unsigned-subtraction
overflow panic, modelled as `none`) exactly when `start + len(likelihoods)` exceeds
`alleles + 1`; the C7 precondition is therefore necessary for `into_full` to return at
all. -/
theorem C9_band_into_full_panics (b : Band) (alleles fill : Nat) :
    b.intoFull alleles fill = none ↔ alleles + 1 < b.start + b.likelihoods.length := by
  unfold Band.intoFull
  simp only [List.length_append, List.length_replicate]
  split
  · simp only [reduceCtorEq, false_iff]
    omega
  · simp only [true_iff]
    omega

theorem stripSuffix_eq_some {s suf t : List Char} (h : stripSuffix s suf = some t) :
    s = t ++ suf := by
  unfold stripSuffix at h
  split at h
  · next hsuf =>
    rw [List.isSuffixOf_iff_suffix] at hsuf
    obtain ⟨u, hu⟩ := hsuf
    obtain rfl := Option.some_injective _ h
    subst hu
    simp
  · exact absurd h (by simp)

/-- The prefix-derivation law for the primary crate's `ext` module:
`member_paths_from_prefix (prefix_from_member_path p) ∋ p`. -/
theorem memberPaths_roundtrip (p pre : List Char) (h : prefixFromMemberPath p = some pre) :
    p ∈ memberPathsFromPfx pre := by
  unfold prefixFromMemberPath at h
  rcases hfind : EXTS.find? (fun ext => ext.isSuffixOf p) with _ | ext
  · rw [hfind] at h; simp at h
  · rw [hfind] at h
    simp only [Option.some_bind] at h
    rcases hstrip : stripSuffix p ext with _ | stem
    · rw [hstrip] at h; simp at h
    · rw [hstrip] at h
      simp only [Option.some_bind] at h
      have hp : p = stem ++ ext := stripSuffix_eq_some hstrip
      have hstem : stem = pre ++ ['.'] := stripSuffix_eq_some h
      have hmem : ext ∈ EXTS := List.mem_of_find?_eq_some hfind
      subst hp hstem
      unfold EXTS at hmem
      rw [List.mem_cons, List.mem_cons, List.mem_singleton] at hmem
      unfold memberPathsFromPfx
      rcases hmem with rfl | rfl | rfl
      all_goals simp [List.append_assoc]

/-- Claim C8 (the claim fails on the legacy variant): as evidence, at the concrete member
path `"foo.bar.saf.idx"` the primary crate's functions satisfy the derivation law, but
the legacy `from_bgzf_prefix` path synthesis via `Path::with_extension` is *not*
concatenation: it maps the derived prefix `"foo.bar"` to `"foo.saf.idx"`, replacing
`".bar"` instead of appending. -/
theorem C8_legacy_with_extension_diverges :
    prefixFromMemberPath "foo.bar.saf.idx".toList = some "foo.bar".toList ∧
    "foo.bar.saf.idx".toList ∈ memberPathsFromPfx "foo.bar".toList ∧
    withExtension "foo.bar".toList INDEX_EXT = "foo.saf.idx".toList ∧
    withExtension "foo.bar".toList INDEX_EXT ≠ "foo.bar".toList ++ '.' :: INDEX_EXT := by
  refine ⟨by decide, by decide, by decide, by decide⟩

/-- Claim C3 (the claim fails on the legacy variant): the primary crate's v4 magic
constant is `b"safv4\0\0\0"` and its read path rejects any differing 8-byte magic with an
`InvalidData` error carrying both the observed and the expected magic; the legacy
variant's `V4::MAGIC_NUMBER`, however, is the v3 magic `b"safv3\0\0\0"`, so the legacy v4
read path rejects the true v4 magic. -/
theorem C3_v4_magic_number :
    v4MagicNumber = [115, 97, 102, 118, 52, 0, 0, 0] ∧
    legacyV4MagicNumber = v3MagicNumber ∧
    legacyV4MagicNumber ≠ v4MagicNumber ∧
    readMagicBytes legacyV4MagicNumber v4MagicNumber =
      .error (.magicMismatch v4MagicNumber legacyV4MagicNumber) ∧
    (∀ bytes rest : Bytes, bytes.length = 8 → bytes ≠ v4MagicNumber →
      readMagicBytes v4MagicNumber (bytes ++ rest) =
        .error (.magicMismatch bytes v4MagicNumber)) ∧
    (IoError.magicMismatch v4MagicNumber legacyV4MagicNumber).kind = .invalidData := by
  refine ⟨rfl, rfl, by decide, rfl, ?_, rfl⟩
  intro bytes rest hlen hne
  unfold readMagicBytes
  have htake : (bytes ++ rest).take 8 = bytes := by
    rw [← hlen, List.take_left]
  rw [if_pos (by simp [hlen]), htake, if_neg hne]

/-- Witness for claim C3: the universally quantified read-path conjunct instantiated at
the concrete wrong magic `b"safv3\0\0\0"` presented to the primary crate's v4 reader. -/
theorem C3_v4_magic_number_witness :
    readMagicBytes v4MagicNumber (([115, 97, 102, 118, 51, 0, 0, 0] : Bytes) ++ []) =
      .error (.magicMismatch [115, 97, 102, 118, 51, 0, 0, 0] v4MagicNumber) :=
  C3_v4_magic_number.2.2.2.2.1 [115, 97, 102, 118, 51, 0, 0, 0] [] (by decide) (by decide)

theorem SafReader.advanceLocation_not_finished (st : SafReader)
    (h : st.location.sitesLeft ≠ 0) : st.advanceLocation = (true, st.location) := by
  unfold SafReader.advanceLocation Location.contigIsFinished
  simp [h]

theorem SafReader.advanceLocation_next (st : SafReader) (r : IndexRecord)
    (h0 : st.location.sitesLeft = 0)
    (hr : st.location.index.records[st.location.contigId + 1]? = some r) :
    st.advanceLocation =
      (true,
        { st.location with contigId := st.location.contigId + 1, sitesLeft := r.sites }) := by
  unfold SafReader.advanceLocation Location.contigIsFinished Location.nextContig
    Location.setContig
  simp [h0, hr]

theorem SafReader.advanceLocation_exhausted (st : SafReader) (h : st.indexExhausted) :
    st.advanceLocation =
      (false, { st.location with contigId := st.location.contigId + 1 }) := by
  obtain ⟨h0, hn⟩ := h
  unfold SafReader.advanceLocation Location.contigIsFinished Location.nextContig
    Location.setContig
  simp [h0, hn]

/-- Claim C5: while the index still asserts sites remaining, `read_record` fails with
`UnexpectedEof` whenever the position stream or the item stream is at EOF (one before
the other, or both before the index is exhausted); once the index is exhausted,
`read_record` returns `Done` when both streams are at EOF and fails with `InvalidData`
when either stream still holds residual bytes. -/
theorem C5_reader_eof_handling (st : SafReader) :
    (¬ st.indexExhausted →
      st.positionReader.remaining = [] ∨ st.itemReader.remaining = [] →
      ∃ msg, st.readRecordV3 = .error (.simple .unexpectedEof msg)) ∧
    (st.indexExhausted →
      (st.positionReader.remaining = [] ∧ st.itemReader.remaining = [] →
        ∃ st', st.readRecordV3 = .ok (.done st')) ∧
      (¬(st.positionReader.remaining = [] ∧ st.itemReader.remaining = []) →
        ∃ msg, st.readRecordV3 = .error (.simple .invalidData msg))) := by
  have hemp : ∀ l : Bytes, l ≠ [] → l.isEmpty = false := by
    intro l hl
    cases l
    · exact absurd rfl hl
    · rfl
  constructor
  · intro hne hempty
    obtain ⟨l, hadv⟩ : ∃ l, st.advanceLocation = (true, l) := by
      by_cases h0 : st.location.sitesLeft = 0
      · rcases hr : st.location.index.records[st.location.contigId + 1]? with _ | r
        · exact absurd ⟨h0, hr⟩ hne
        · exact ⟨_, st.advanceLocation_next r h0 hr⟩
      · exact ⟨_, st.advanceLocation_not_finished h0⟩
    unfold SafReader.readRecordV3
    rw [hadv]
    rcases hempty with hpos | hitem
    · by_cases hitem : st.itemReader.remaining = []
      · exact ⟨"reached EoF in both SAF files before reaching end of index",
          by simp [readPosition, readLikelihoods, BStream.readExact, hpos, hitem]⟩
      · by_cases hle : 4 * (l.index.alleles + 1) ≤ st.itemReader.remaining.length
        · exact ⟨"reached EoF in SAF item file before reaching EoF in SAF position file",
            by simp [readPosition, readLikelihoods, BStream.readExact, hpos,
              hemp _ hitem, hle]⟩
        · exact ⟨"failed to fill whole buffer",
            by simp [readPosition, readLikelihoods, BStream.readExact, hpos,
              hemp _ hitem, hle]⟩
    · by_cases hpos : st.positionReader.remaining = []
      · exact ⟨"reached EoF in both SAF files before reaching end of index",
          by simp [readPosition, readLikelihoods, BStream.readExact, hpos, hitem]⟩
      · by_cases hle : 4 ≤ st.positionReader.remaining.length
        · exact ⟨"reached EoF in SAF position file before reaching EoF in SAF item file",
            by simp [readPosition, readLikelihoods, BStream.readExact, hitem, hle,
              List.length_eq_zero.not.mpr hpos]⟩
        · exact ⟨"failed to read position",
            by simp [readPosition, BStream.readExact, hle,
              List.length_eq_zero.not.mpr hpos]⟩
  · intro hex
    have hadv := st.advanceLocation_exhausted hex
    constructor
    · rintro ⟨hpos, hitem⟩
      refine ⟨{ st with location :=
        ⟨st.location.index, st.location.contigId + 1, st.location.sitesLeft⟩ }, ?_⟩
      unfold SafReader.readRecordV3
      rw [hadv]
      simp [BStream.isEof, hpos, hitem]
    · intro hnot
      unfold SafReader.readRecordV3
      rw [hadv]
      by_cases hpos : st.positionReader.remaining = []
      · have hitem : st.itemReader.remaining ≠ [] := fun h => hnot ⟨hpos, h⟩
        exact ⟨"reached end of index before reaching EoF in SAF position file",
          by simp [BStream.isEof, hpos, hemp _ hitem]⟩
      · by_cases hitem : st.itemReader.remaining = []
        · exact ⟨"reached end of index before reaching EoF in SAF item file",
            by simp [BStream.isEof, hemp _ hpos, hitem]⟩
        · exact ⟨"reached end of index before reaching EoF in both SAF files",
            by simp [BStream.isEof, hemp _ hpos, hemp _ hitem]⟩

/-- Witness for claim C5: a concrete reader whose index asserts one remaining site but
whose streams are empty fails with `UnexpectedEof`, and a concrete exhausted reader with
empty streams returns `Done`. -/
theorem C5_reader_eof_handling_witness :
    (∃ msg,
      (SafReader.mk ⟨⟨1, [⟨[99], 1, 0, 8, 8⟩]⟩, 0, 1⟩ ⟨[], 0⟩ ⟨[], 0⟩).readRecordV3 =
        .error (.simple .unexpectedEof msg)) ∧
    (∃ st',
      (SafReader.mk ⟨⟨1, [⟨[99], 1, 0, 8, 8⟩]⟩, 0, 0⟩ ⟨[], 0⟩ ⟨[], 0⟩).readRecordV3 =
        .ok (.done st')) :=
  ⟨(C5_reader_eof_handling _).1 (by decide) (Or.inl rfl),
    ((C5_reader_eof_handling _).2 (by exact ⟨rfl, rfl⟩)).1 ⟨rfl, rfl⟩⟩

theorem BStream.remaining_length_readExact (s : BStream) (n : Nat) (bs : Bytes)
    (s' : BStream) (h : s.readExact n = some (bs, s')) :
    s'.remaining.length = s.remaining.length - n := by
  unfold BStream.readExact at h
  split at h
  · obtain ⟨-, rfl⟩ := Prod.mk.injEq .. ▸ Option.some_injective _ h
    show (s.data.drop (s.pos + n)).length = _
    simp [BStream.remaining, List.length_drop]
    omega
  · exact absurd h (by simp)

theorem glfReadRecordsGo_short (n : Nat) (s : BStream)
    (h : s.remaining.length < 80 * n) :
    glfReadRecordsGo n s = .error (.simple .unexpectedEof "failed to fill whole buffer") := by
  induction n generalizing s with
  | zero => omega
  | succ m ih =>
    unfold glfReadRecordsGo glfReadRecordUnchecked
    by_cases hle : 80 ≤ s.remaining.length
    · rcases hex : s.readExact 80 with _ | ⟨bs, s'⟩
      · exact absurd hex (by unfold BStream.readExact; simp [hle])
      · have hlen := s.remaining_length_readExact 80 bs s' hex
        have hlt : s'.remaining.length < 80 * m := by omega
        simp [ih s' hlt]
    · have : s.readExact 80 = none := by unfold BStream.readExact; simp [hle]
      rw [this]

/-- Claim C10: the GLF bulk `read_records` checks for end-of-stream only before the
first record; for a buffer slice of `n ≥ 2` records and a stream holding at least one
complete 80-byte record but fewer than `n` of them (in particular when the stream ends
exactly on a record boundary), it fails with `UnexpectedEof` instead of returning
`Done`. -/
theorem C10_glf_read_records_eof (n : Nat) (s : BStream) (hn : 2 ≤ n)
    (hlo : 80 ≤ s.remaining.length) (hhi : s.remaining.length < 80 * n) :
    glfReadRecords n s = .error (.simple .unexpectedEof "failed to fill whole buffer") := by
  have hne : s.remaining ≠ [] := by
    intro h
    rw [h] at hlo
    simp at hlo
  have : s.remaining.isEmpty = false := by
    cases hr : s.remaining
    · exact absurd hr hne
    · rfl
  unfold glfReadRecords
  rw [this]
  simp only [Bool.false_eq_true, if_false, glfReadRecordsGo_short n s hhi]

/-- Witness for claim C10: a slice of 2 record buffers over a stream of exactly one
80-byte record (ending on a record boundary) yields `UnexpectedEof`, not `Done`. -/
theorem C10_glf_read_records_eof_witness :
    glfReadRecords 2 ⟨List.replicate 80 0, 0⟩ =
      .error (.simple .unexpectedEof "failed to fill whole buffer") :=
  C10_glf_read_records_eof 2 ⟨List.replicate 80 0, 0⟩ (by decide)
    (by simp [BStream.remaining]) (by simp [BStream.remaining])

/-- Claim C4 (the code diverges from the claim): writing a v4 record on a new contig
does write the pending record out and installs a fresh pending record with the
snapshotted virtual positions and `sites = 1`, but its `sum_band` is `0`, not the length
of the new record's band.  Concretely, after `chr1:1 Band(0,[10,11])` and
`chr2:1 Band(0,[10,11,12])` the pending record for `chr2` is
`(sites 1, sum_band 0, offsets 12/24)` although the new band holds 3 values; the index
record that `finish` would flush for `chr2` therefore accounts no values for its first
site. -/
theorem C4_v4_fresh_pending_record :
    ((writeRecordV4 (initWriterV4 5) ⟨[99, 104, 114, 49], 1, ⟨0, [10, 11]⟩⟩).bind
        fun st => writeRecordV4 st ⟨[99, 104, 114, 50], 1, ⟨0, [10, 11, 12]⟩⟩).map
        (fun st => st.indexRecord) =
      some (some ⟨[99, 104, 114, 50], 1, 0, 12, 24⟩) ∧
    (0 : Nat) ≠ (Band.mk 0 [10, 11, 12]).likelihoods.length := by
  constructor
  · rfl
  · decide

theorem foldl_writeRecordV3_same (name : Bytes) :
    ∀ (recs : List (Nat × List Nat)) (st : SafWriter) (pr : IndexRecord),
    st.indexRecord = some pr → pr.name = name →
    ((recs.map fun pr2 => (⟨name, pr2.1, pr2.2⟩ : SafRecordWrite)).foldl writeRecordV3 st) =
      { indexWriter := st.indexWriter,
        positionWriter := st.positionWriter ++ (recs.map fun pr2 => u32le pr2.1).flatten,
        itemWriter := st.itemWriter ++ (recs.map fun pr2 => likelihoodBytes pr2.2).flatten,
        indexRecord := some { pr with sites := pr.sites + recs.length } } := by
  intro recs
  induction recs with
  | nil =>
    intro st pr hpr hname
    obtain ⟨iw, pw, itw, ir⟩ := st
    obtain ⟨prn, prs, prb, prp, pri⟩ := pr
    simp only [List.map_nil, List.foldl_nil]
    simp only at hpr
    subst hpr
    simp
  | cons hd more ih =>
    intro st pr hpr hname
    have hstep : writeRecordV3 st ⟨name, hd.1, hd.2⟩ =
        { indexWriter := st.indexWriter,
          positionWriter := st.positionWriter ++ u32le hd.1,
          itemWriter := st.itemWriter ++ likelihoodBytes hd.2,
          indexRecord := some { pr with sites := pr.sites + 1 } } := by
      unfold writeRecordV3 writeRecordV3Go writeDataV3
      rw [hpr]
      simp [hname]
    rw [List.map_cons, List.foldl_cons, hstep,
      ih _ { pr with sites := pr.sites + 1 } rfl hname]
    simp [List.append_assoc]
    omega

theorem foldl_writeRecordV3_newContig (b : SafBlock) (st : SafWriter) (pr : IndexRecord)
    (hpr : st.indexRecord = some pr) (hne : pr.name ≠ b.name) (hb : b.recs ≠ []) :
    (b.toRecords.foldl writeRecordV3 st) =
      { indexWriter := st.indexWriter ++ indexRecordBytesV3 pr,
        positionWriter := st.positionWriter ++ blockPosBytes b,
        itemWriter := st.itemWriter ++ blockItemBytes b,
        indexRecord := some ⟨b.name, b.recs.length, 0,
          st.positionWriter.length, st.itemWriter.length⟩ } := by
  rcases hrecs : b.recs with _ | ⟨hd, more⟩
  · exact absurd hrecs hb
  · have hstep : writeRecordV3 st ⟨b.name, hd.1, hd.2⟩ =
        { indexWriter := st.indexWriter ++ indexRecordBytesV3 pr,
          positionWriter := st.positionWriter ++ u32le hd.1,
          itemWriter := st.itemWriter ++ likelihoodBytes hd.2,
          indexRecord := some ⟨b.name, 1, 0,
            st.positionWriter.length, st.itemWriter.length⟩ } := by
      unfold writeRecordV3 writeRecordV3Go writeDataV3
      rw [hpr]
      simp [hne]
    unfold SafBlock.toRecords
    rw [hrecs, List.map_cons, List.foldl_cons, hstep,
      foldl_writeRecordV3_same b.name more _ _ rfl rfl]
    simp [blockPosBytes, blockItemBytes, hrecs, List.append_assoc]
    omega

theorem foldl_writeRecordV3_first (b : SafBlock) (st : SafWriter)
    (hpr : st.indexRecord = none) (hb : b.recs ≠ []) :
    (b.toRecords.foldl writeRecordV3 st) =
      { indexWriter := st.indexWriter,
        positionWriter := st.positionWriter ++ blockPosBytes b,
        itemWriter := st.itemWriter ++ blockItemBytes b,
        indexRecord := some ⟨b.name, b.recs.length, 0, 8, 8⟩ } := by
  rcases hrecs : b.recs with _ | ⟨hd, more⟩
  · exact absurd hrecs hb
  · have hstep : writeRecordV3 st ⟨b.name, hd.1, hd.2⟩ =
        { indexWriter := st.indexWriter,
          positionWriter := st.positionWriter ++ u32le hd.1,
          itemWriter := st.itemWriter ++ likelihoodBytes hd.2,
          indexRecord := some ⟨b.name, 1, 0, 8, 8⟩ } := by
      unfold writeRecordV3 writeRecordV3Go writeDataV3
      rw [hpr]
      simp
    unfold SafBlock.toRecords
    rw [hrecs, List.map_cons, List.foldl_cons, hstep,
      foldl_writeRecordV3_same b.name more _ _ rfl rfl]
    simp [blockPosBytes, blockItemBytes, hrecs, List.append_assoc]
    omega

theorem finish_foldl_writeRecordV3 :
    ∀ (blocks : List SafBlock) (st : SafWriter) (pr : IndexRecord),
    st.indexRecord = some pr →
    (∀ b ∈ blocks, b.recs ≠ []) →
    List.Chain' (· ≠ ·) (pr.name :: blocks.map SafBlock.name) →
    finishV3 ((flattenBlocks blocks).foldl writeRecordV3 st) =
      (st.indexWriter ++ indexRecordBytesV3 pr ++
        ((expectedRecsGo st.positionWriter.length st.itemWriter.length blocks).map
          indexRecordBytesV3).flatten,
       st.positionWriter ++ posPayload blocks,
       st.itemWriter ++ itemPayload blocks) := by
  intro blocks
  induction blocks with
  | nil =>
    intro st pr hpr _ _
    unfold flattenBlocks finishV3
    rw [show ((([] : List SafBlock).map SafBlock.toRecords).flatten.foldl writeRecordV3 st)
      = st by simp]
    rw [hpr]
    simp [expectedRecsGo, posPayload, itemPayload]
  | cons b rest ih =>
    intro st pr hpr hb hchain
    have hflat : flattenBlocks (b :: rest) = b.toRecords ++ flattenBlocks rest := by
      unfold flattenBlocks
      simp
    have hne : pr.name ≠ b.name := (List.chain'_cons.mp hchain).1
    have hchain' : List.Chain' (· ≠ ·) (b.name :: rest.map SafBlock.name) :=
      (List.chain'_cons.mp hchain).2
    rw [hflat, List.foldl_append,
      foldl_writeRecordV3_newContig b st pr hpr hne (hb b (by simp))]
    rw [ih _ _ rfl (fun b2 h2 => hb b2 (by simp [h2])) hchain']
    simp only [expectedRecsGo, posPayload, itemPayload, List.map_cons, List.flatten_cons,
      List.length_append, Prod.mk.injEq]
    refine ⟨?_, ⟨?_, ?_⟩⟩
    · simp [List.append_assoc]
    · simp [posPayload, List.append_assoc]
    · simp [itemPayload, List.append_assoc]

theorem writeAllV3_eq (alleles : Nat) (blocks : List SafBlock)
    (hne : blocks ≠ []) (hb : ∀ b ∈ blocks, b.recs ≠ [])
    (hchain : List.Chain' (· ≠ ·) (blocks.map SafBlock.name)) :
    writeAllV3 alleles (flattenBlocks blocks) =
      (v3MagicNumber ++ u64le alleles ++
        ((expectedRecs blocks).map indexRecordBytesV3).flatten,
       v3MagicNumber ++ posPayload blocks,
       v3MagicNumber ++ itemPayload blocks) := by
  rcases blocks with _ | ⟨b, rest⟩
  · exact absurd rfl hne
  · unfold writeAllV3
    have hflat : flattenBlocks (b :: rest) = b.toRecords ++ flattenBlocks rest := by
      unfold flattenBlocks
      simp
    rw [hflat, List.foldl_append,
      foldl_writeRecordV3_first b (initWriterV3 alleles) rfl (hb b (by simp))]
    have hchain2 : List.Chain' (· ≠ ·)
        ((⟨b.name, b.recs.length, 0, 8, 8⟩ : IndexRecord).name :: rest.map SafBlock.name) := by
      simpa using hchain
    rw [finish_foldl_writeRecordV3 rest _ _ rfl (fun b2 h2 => hb b2 (by simp [h2])) hchain2]
    unfold initWriterV3 expectedRecs
    simp only [expectedRecsGo, List.map_cons, List.flatten_cons, posPayload, itemPayload,
      Prod.mk.injEq]
    refine ⟨?_, ⟨?_, ?_⟩⟩
    · have h8 : (v3MagicNumber ++ blockPosBytes b).length = 8 + (blockPosBytes b).length := by
        simp [v3MagicNumber]
        omega
      have h8b : (v3MagicNumber ++ blockItemBytes b).length = 8 + (blockItemBytes b).length := by
        simp [v3MagicNumber]
        omega
      rw [h8, h8b]
      simp [List.append_assoc]
    · simp [posPayload, List.append_assoc]
    · simp [itemPayload, List.append_assoc]

theorem readBytesN_exact (n : Nat) (bs rest : Bytes) (h : bs.length = n) :
    readBytesN n (bs ++ rest) = .ok (bs, rest) := by
  unfold readBytesN
  rw [if_pos (by simp [← h]), List.take_left' h, List.drop_left' h]

theorem parseIndexRecordV3_bytes (r : IndexRecord) (rest : Bytes)
    (hn : r.name.length < 2 ^ 64) (hu : validUtf8 r.name = true)
    (hs : r.sites < 2 ^ 64) (hp : r.positionOffset < 2 ^ 64)
    (hi : r.itemOffset < 2 ^ 64) :
    parseIndexRecordV3 (indexRecordBytesV3 r ++ rest) =
      .ok (⟨r.name, r.sites, 0, r.positionOffset, r.itemOffset⟩, rest) := by
  have h1 : indexRecordBytesV3 r ++ rest =
      u64le r.name.length ++ (r.name ++ (u64le r.sites ++ (u64le r.positionOffset ++
        (u64le r.itemOffset ++ rest)))) := by
    unfold indexRecordBytesV3
    simp [List.append_assoc]
  unfold parseIndexRecordV3
  rw [h1, readBytesN_exact 8 _ _ (u64le_length _)]
  simp only []
  rw [fromLe_u64le _ hn, readBytesN_exact r.name.length _ _ rfl]
  simp only []
  rw [if_pos hu, readBytesN_exact 8 _ _ (u64le_length _)]
  simp only []
  rw [readBytesN_exact 8 _ _ (u64le_length _)]
  simp only []
  rw [readBytesN_exact 8 _ _ (u64le_length _)]
  simp only []
  rw [fromLe_u64le _ hs, fromLe_u64le _ hp, fromLe_u64le _ hi]

/-- The byte size of a v3 index record is positive (in fact at least 32). -/
theorem indexRecordBytesV3_length (r : IndexRecord) :
    (indexRecordBytesV3 r).length = 32 + r.name.length := by
  unfold indexRecordBytesV3
  simp [u64le_length]
  omega

theorem parseIndexRecordsV3_bytes :
    ∀ (rs : List IndexRecord) (fuel : Nat),
    (∀ r ∈ rs, r.name.length < 2 ^ 64 ∧ validUtf8 r.name = true ∧ r.sites < 2 ^ 64 ∧
      r.positionOffset < 2 ^ 64 ∧ r.itemOffset < 2 ^ 64 ∧ r.sumBand = 0) →
    ((rs.map indexRecordBytesV3).flatten).length ≤ fuel →
    parseIndexRecordsV3 fuel ((rs.map indexRecordBytesV3).flatten) = .ok rs := by
  intro rs
  induction rs with
  | nil =>
    intro fuel _ _
    show parseIndexRecordsV3 fuel [] = .ok []
    unfold parseIndexRecordsV3
    rfl
  | cons r rest ih =>
    intro fuel hv hfuel
    obtain ⟨hn, hu, hs, hp, hi, hb⟩ := hv r (by simp)
    have hlen : (indexRecordBytesV3 r).length = 32 + r.name.length :=
      indexRecordBytesV3_length r
    have hflat : ((r :: rest).map indexRecordBytesV3).flatten =
        indexRecordBytesV3 r ++ (rest.map indexRecordBytesV3).flatten := by
      simp
    rw [hflat] at hfuel ⊢
    have htot : (indexRecordBytesV3 r ++ (rest.map indexRecordBytesV3).flatten).length =
        (32 + r.name.length) + ((rest.map indexRecordBytesV3).flatten).length := by
      simp [hlen]
    rcases fuel with _ | fuel
    · omega
    · have hne : indexRecordBytesV3 r ++ (rest.map indexRecordBytesV3).flatten ≠ [] := by
        intro hcon
        have := congrArg List.length hcon
        simp [hlen] at this
      have hemp : (indexRecordBytesV3 r ++ (rest.map indexRecordBytesV3).flatten).isEmpty
          = false := by
        rcases hl : indexRecordBytesV3 r ++ (rest.map indexRecordBytesV3).flatten with _ | _
        · exact absurd hl hne
        · rfl
      unfold parseIndexRecordsV3
      rw [hemp]
      simp only [Bool.false_eq_true, if_false]
      rw [parseIndexRecordV3_bytes r _ hn hu hs hp hi]
      simp only []
      have hrec : parseIndexRecordsV3 fuel ((rest.map indexRecordBytesV3).flatten) =
          .ok rest := ih fuel (fun x hx => hv x (by simp [hx])) (by omega)
      rw [hrec]
      simp only []
      have : r = ⟨r.name, r.sites, 0, r.positionOffset, r.itemOffset⟩ := by
        obtain ⟨a, b, c, d, e⟩ := r
        simp only at hb
        simp [hb]
      rw [← this]

theorem readMagicBytes_ok (magic rest : Bytes) (h : magic.length = 8) :
    readMagicBytes magic (magic ++ rest) = .ok rest := by
  unfold readMagicBytes
  rw [if_pos (by simp [h]), List.take_left' h, if_pos rfl, List.drop_left' h]

theorem readIndexV3_bytes (alleles : Nat) (rs : List IndexRecord)
    (ha : alleles < 2 ^ 64)
    (hv : ∀ r ∈ rs, r.name.length < 2 ^ 64 ∧ validUtf8 r.name = true ∧ r.sites < 2 ^ 64 ∧
      r.positionOffset < 2 ^ 64 ∧ r.itemOffset < 2 ^ 64 ∧ r.sumBand = 0) :
    readIndexV3 (v3MagicNumber ++ u64le alleles ++ (rs.map indexRecordBytesV3).flatten) =
      .ok ⟨alleles, rs⟩ := by
  have hassoc : v3MagicNumber ++ u64le alleles ++ (rs.map indexRecordBytesV3).flatten =
      v3MagicNumber ++ (u64le alleles ++ (rs.map indexRecordBytesV3).flatten) := by
    simp [List.append_assoc]
  unfold readIndexV3
  rw [hassoc, readMagicBytes_ok _ _ (by rfl)]
  simp only []
  rw [readBytesN_exact 8 _ _ (u64le_length _)]
  simp only []
  rw [parseIndexRecordsV3_bytes rs _ hv (le_refl _)]
  simp only []
  rw [fromLe_u64le _ ha]

theorem expectedRecsGo_pairs :
    ∀ (blocks : List SafBlock) (pOff iOff : Nat),
    (expectedRecsGo pOff iOff blocks).map (fun r => (r.name, r.sites)) =
      blocks.map (fun b => (b.name, b.recs.length)) := by
  intro blocks
  induction blocks with
  | nil => intro pOff iOff; rfl
  | cons b rest ih =>
    intro pOff iOff
    simp [expectedRecsGo, ih]

theorem expectedRecsGo_bounds :
    ∀ (blocks : List SafBlock) (pOff iOff : Nat) (r : IndexRecord),
    r ∈ expectedRecsGo pOff iOff blocks →
    (∃ b ∈ blocks, r.name = b.name ∧ r.sites = b.recs.length) ∧ r.sumBand = 0 ∧
    pOff ≤ r.positionOffset ∧ r.positionOffset ≤ pOff + (posPayload blocks).length ∧
    iOff ≤ r.itemOffset ∧ r.itemOffset ≤ iOff + (itemPayload blocks).length := by
  intro blocks
  induction blocks with
  | nil =>
    intro pOff iOff r hr
    simp [expectedRecsGo] at hr
  | cons b rest ih =>
    intro pOff iOff r hr
    rw [expectedRecsGo, List.mem_cons] at hr
    rcases hr with rfl | hr
    · refine ⟨⟨b, by simp, rfl, rfl⟩, rfl, le_refl _, ?_, le_refl _, ?_⟩ <;> simp
    · obtain ⟨⟨b2, hb2, hname, hsites⟩, hsum, hp1, hp2, hi1, hi2⟩ := ih _ _ r hr
      have hpos : (posPayload (b :: rest)).length =
          (blockPosBytes b).length + (posPayload rest).length := by
        simp [posPayload]
      have hitem : (itemPayload (b :: rest)).length =
          (blockItemBytes b).length + (itemPayload rest).length := by
        simp [itemPayload]
      exact ⟨⟨b2, by simp [hb2], hname, hsites⟩, hsum, by omega, by omega, by omega, by omega⟩

theorem likelihoodBytes_length (it : List Nat) :
    (likelihoodBytes it).length = 4 * it.length := by
  induction it with
  | nil => rfl
  | cons w ws ih =>
    unfold likelihoodBytes at ih ⊢
    simp only [List.map_cons, List.flatten_cons, List.length_append, ih, u32le_length,
      List.length_cons]
    omega

theorem chunk4_likelihoodBytes (it : List Nat) (hw : ∀ w ∈ it, w < 2 ^ 32) :
    chunk4 (likelihoodBytes it) = it := by
  induction it with
  | nil => rfl
  | cons w ws ih =>
    have hcons : likelihoodBytes (w :: ws) =
        w % 256 :: w / 256 % 256 :: w / 256 / 256 % 256 :: w / 256 / 256 / 256 % 256 ::
          likelihoodBytes ws := by
      show (u32le w ++ (List.map u32le ws).flatten) = _
      show (u32le w ++ likelihoodBytes ws) = _
      simp [u32le, leBytes]
    rw [hcons, chunk4]
    rw [ih fun w2 h2 => hw w2 (by simp [h2])]
    have : fromLe [w % 256, w / 256 % 256, w / 256 / 256 % 256, w / 256 / 256 / 256 % 256] =
        fromLe (u32le w) := by
      simp [u32le, leBytes]
    rw [this, fromLe_u32le w (hw w (by simp))]

theorem BStream.readExact_eq (s : BStream) (n : Nat) (bs tail : Bytes)
    (h : s.remaining = bs ++ tail) (hlen : bs.length = n) :
    s.readExact n = some (bs, ⟨s.data, s.pos + n⟩) ∧
      (BStream.mk s.data (s.pos + n)).remaining = tail := by
  have hrem : (BStream.mk s.data (s.pos + n)).remaining = tail := by
    show s.data.drop (s.pos + n) = tail
    have h1 : s.data.drop (s.pos + n) = (s.data.drop s.pos).drop n := by
      rw [List.drop_drop, Nat.add_comm]
    rw [h1]
    show s.remaining.drop n = tail
    rw [h, List.drop_left' hlen]
  refine ⟨?_, hrem⟩
  unfold BStream.readExact
  rw [if_pos (by rw [h]; simp [← hlen])]
  rw [show s.remaining.take n = bs by rw [h, List.take_left' hlen]]

theorem readPosition_u32 (s : BStream) (p : Nat) (tail : Bytes)
    (h : s.remaining = u32le p ++ tail) (hp : p < 2 ^ 32) :
    readPosition s = .ok (some p, ⟨s.data, s.pos + 4⟩) ∧
      (BStream.mk s.data (s.pos + 4)).remaining = tail := by
  obtain ⟨hex, hrem⟩ := s.readExact_eq 4 (u32le p) tail h (u32le_length p)
  refine ⟨?_, hrem⟩
  unfold readPosition
  rw [if_neg (by rw [h]; simp [u32le_length]), hex]
  simp only []
  rw [fromLe_u32le p hp]

theorem readLikelihoods_words (s : BStream) (it : List Nat) (tail : Bytes) (count : Nat)
    (h : s.remaining = likelihoodBytes it ++ tail) (hlen : it.length = count)
    (hw : ∀ w ∈ it, w < 2 ^ 32) (hcount : 0 < count) :
    readLikelihoods s count = .ok (.notDone, it, ⟨s.data, s.pos + 4 * count⟩) ∧
      (BStream.mk s.data (s.pos + 4 * count)).remaining = tail := by
  have hbl : (likelihoodBytes it).length = 4 * count := by
    rw [likelihoodBytes_length, hlen]
  obtain ⟨hex, hrem⟩ := s.readExact_eq (4 * count) (likelihoodBytes it) tail h hbl
  refine ⟨?_, hrem⟩
  unfold readLikelihoods
  have hne : s.remaining.isEmpty = false := by
    have : s.remaining.length = 4 * count + tail.length := by
      rw [h]
      simp [hbl]
    rcases hl : s.remaining with _ | _
    · rw [hl] at this
      simp at this
      omega
    · rfl
  rw [hne]
  simp only [Bool.false_eq_true, if_false]
  rw [hex]
  simp only []
  rw [chunk4_likelihoodBytes it hw]

theorem readRecordV3_data (st : SafReader) (loc : Location) (p : Nat) (it : List Nat)
    (ptail itail : Bytes)
    (hadv : st.advanceLocation = (true, loc))
    (hpos : st.positionReader.remaining = u32le p ++ ptail)
    (hitem : st.itemReader.remaining = likelihoodBytes it ++ itail)
    (hp : p < 2 ^ 32) (hlen : it.length = loc.index.alleles + 1)
    (hw : ∀ w ∈ it, w < 2 ^ 32) :
    st.readRecordV3 = .ok (.record ⟨loc.contigId, p, it⟩
      { location := { loc with sitesLeft := loc.sitesLeft - 1 },
        positionReader := ⟨st.positionReader.data, st.positionReader.pos + 4⟩,
        itemReader := ⟨st.itemReader.data,
          st.itemReader.pos + 4 * (loc.index.alleles + 1)⟩ }) ∧
    (BStream.mk st.positionReader.data (st.positionReader.pos + 4)).remaining = ptail ∧
    (BStream.mk st.itemReader.data
      (st.itemReader.pos + 4 * (loc.index.alleles + 1))).remaining = itail := by
  obtain ⟨hrp, hrem1⟩ := readPosition_u32 st.positionReader p ptail hpos hp
  obtain ⟨hrl, hrem2⟩ := readLikelihoods_words st.itemReader it itail
    (loc.index.alleles + 1) hitem hlen hw (by omega)
  refine ⟨?_, hrem1, hrem2⟩
  unfold SafReader.readRecordV3
  rw [hadv]
  simp only []
  rw [hrp]
  simp only []
  rw [hrl]
  simp only [if_true]

theorem sitesTotal_cons (b : SafBlock) (rest : List SafBlock) :
    sitesTotal (b :: rest) = b.recs.length + sitesTotal rest := by
  simp [sitesTotal]

theorem posPayload_cons (b : SafBlock) (rest : List SafBlock) :
    posPayload (b :: rest) = blockPosBytes b ++ posPayload rest := by
  simp [posPayload]

theorem itemPayload_cons (b : SafBlock) (rest : List SafBlock) :
    itemPayload (b :: rest) = blockItemBytes b ++ itemPayload rest := by
  simp [itemPayload]

theorem drainV3_trace (alleles : Nat) :
    ∀ (rest : List SafBlock) (cur : List (Nat × List Nat)) (j : Nat) (st : SafReader),
    st.location.index.alleles = alleles →
    st.location.contigId = j →
    st.location.sitesLeft = cur.length →
    (∀ k, (st.location.index.records.map IndexRecord.sites)[j + 1 + k]? =
      (rest.map fun b => b.recs.length)[k]?) →
    st.positionReader.remaining =
      (cur.map fun pr => u32le pr.1).flatten ++ posPayload rest →
    st.itemReader.remaining =
      (cur.map fun pr => likelihoodBytes pr.2).flatten ++ itemPayload rest →
    (∀ pr ∈ cur, pr.1 < 2 ^ 32 ∧ pr.2.length = alleles + 1 ∧ ∀ w ∈ pr.2, w < 2 ^ 32) →
    (∀ b ∈ rest, b.recs ≠ [] ∧ ∀ pr ∈ b.recs, pr.1 < 2 ^ 32 ∧
      pr.2.length = alleles + 1 ∧ ∀ w ∈ pr.2, w < 2 ^ 32) →
    drainV3 (cur.length + sitesTotal rest + 1) st =
      .ok ((cur.map fun pr => (⟨j, pr.1, pr.2⟩ : SafRecordRead)) ++
        expectedReadsGo (j + 1) rest) := by
  intro rest
  induction rest with
  | nil =>
    intro cur
    induction cur with
    | nil =>
      intro j st h1 h2 h3 h4 h5 h6 h7 h8
      have h40 := h4 0
      rw [List.getElem?_map] at h40
      simp only [List.map_nil, List.getElem?_nil, Nat.add_zero] at h40
      have hnone : st.location.index.records[j + 1]? = none := by
        rcases hh : st.location.index.records[j + 1]? with _ | r
        · rfl
        · rw [hh] at h40
          simp at h40
      have hex : st.indexExhausted := by
        refine ⟨by rw [h3]; rfl, ?_⟩
        rw [h2]
        exact hnone
      have hadv := st.advanceLocation_exhausted hex
      have hposrem : st.positionReader.remaining = [] := by
        simpa [posPayload] using h5
      have hitemrem : st.itemReader.remaining = [] := by
        simpa [itemPayload] using h6
      show drainV3 (0 + sitesTotal [] + 1) st = _
      rw [show (0 + sitesTotal [] + 1) = 0 + 1 by rfl]
      unfold drainV3
      unfold SafReader.readRecordV3
      rw [hadv]
      simp [BStream.isEof, hposrem, hitemrem, expectedReadsGo]
    | cons pr more ihcur =>
      intro j st h1 h2 h3 h4 h5 h6 h7 h8
      obtain ⟨hp, hlen, hwords⟩ := h7 pr (by simp)
      have hadv := st.advanceLocation_not_finished (by rw [h3]; simp)
      have hpos' : st.positionReader.remaining = u32le pr.1 ++
          ((more.map fun pr2 => u32le pr2.1).flatten ++ posPayload []) := by
        rw [h5]
        simp [List.append_assoc]
      have hitem' : st.itemReader.remaining = likelihoodBytes pr.2 ++
          ((more.map fun pr2 => likelihoodBytes pr2.2).flatten ++ itemPayload []) := by
        rw [h6]
        simp [List.append_assoc]
      obtain ⟨hread, hrem1, hrem2⟩ := readRecordV3_data st st.location pr.1 pr.2 _ _
        hadv hpos' hitem' hp (by rw [h1]; exact hlen) hwords
      have hfuel : (pr :: more).length + sitesTotal [] + 1 =
          (more.length + sitesTotal [] + 1) + 1 := by
        simp
        omega
      rw [hfuel]
      unfold drainV3
      rw [hread]
      simp only []
      have hih := ihcur j
        (⟨⟨st.location.index, st.location.contigId, st.location.sitesLeft - 1⟩,
          ⟨st.positionReader.data, st.positionReader.pos + 4⟩,
          ⟨st.itemReader.data,
            st.itemReader.pos + 4 * (st.location.index.alleles + 1)⟩⟩ : SafReader)
        h1 h2 (by simp [h3]) h4 hrem1 hrem2
        (fun pr2 hpr2 => h7 pr2 (by simp [hpr2])) h8
      rw [hih]
      simp [h2]
  | cons b rest' ihrest =>
    intro cur
    induction cur with
    | nil =>
      intro j st h1 h2 h3 h4 h5 h6 h7 h8
      have h40 := h4 0
      rw [List.getElem?_map] at h40
      simp only [List.map_cons, List.getElem?_cons_zero] at h40
      obtain ⟨r, hr, hrs⟩ : ∃ r, st.location.index.records[j + 1]? = some r ∧
          r.sites = b.recs.length := by
        rcases hh : st.location.index.records[j + 1]? with _ | r
        · rw [show j + 1 + 0 = j + 1 by rfl, hh] at h40
          simp at h40
        · rw [show j + 1 + 0 = j + 1 by rfl, hh] at h40
          simp at h40
          exact ⟨r, rfl, h40⟩
      have hadv := st.advanceLocation_next r (by rw [h3]; rfl) (by rw [h2]; exact hr)
      obtain ⟨hbne, hbrec⟩ := h8 b (by simp)
      rcases hbrecs : b.recs with _ | ⟨pr, more⟩
      · exact absurd hbrecs hbne
      obtain ⟨hp, hlen, hwords⟩ := hbrec pr (by simp [hbrecs])
      have hpos' : st.positionReader.remaining = u32le pr.1 ++
          ((more.map fun pr2 => u32le pr2.1).flatten ++ posPayload rest') := by
        rw [h5, posPayload_cons]
        simp [blockPosBytes, hbrecs, List.append_assoc]
      have hitem' : st.itemReader.remaining = likelihoodBytes pr.2 ++
          ((more.map fun pr2 => likelihoodBytes pr2.2).flatten ++ itemPayload rest') := by
        rw [h6, itemPayload_cons]
        simp [blockItemBytes, hbrecs, List.append_assoc]
      obtain ⟨hread, hrem1, hrem2⟩ := readRecordV3_data st _ pr.1 pr.2 _ _
        hadv hpos' hitem' hp (by simpa [h1] using hlen) hwords
      have hfuel : (List.length ([] : List (Nat × List Nat))) + sitesTotal (b :: rest') + 1 =
          (more.length + sitesTotal rest' + 1) + 1 := by
        rw [sitesTotal_cons]
        simp [hbrecs]
        omega
      rw [hfuel]
      unfold drainV3
      rw [hread]
      simp only []
      have hih := ihrest more (j + 1)
        (⟨⟨st.location.index, st.location.contigId + 1, r.sites - 1⟩,
          ⟨st.positionReader.data, st.positionReader.pos + 4⟩,
          ⟨st.itemReader.data,
            st.itemReader.pos + 4 * (st.location.index.alleles + 1)⟩⟩ : SafReader)
        h1 (by rw [h2]) (by rw [hrs, hbrecs]; simp)
        (by
          intro k
          simp only []
          have hk := h4 (k + 1)
          rw [show j + 1 + (k + 1) = j + 1 + 1 + k by omega] at hk
          rw [hk]
          simp)
        hrem1 hrem2
        (fun pr2 hpr2 => hbrec pr2 (by simp [hbrecs, hpr2]))
        (fun b2 hb2 => h8 b2 (by simp [hb2]))
      rw [hih]
      simp only [List.map_nil, List.nil_append, expectedReadsGo, hbrecs, List.map_cons, h2]
      simp [List.append_assoc]
    | cons pr more ihcur =>
      intro j st h1 h2 h3 h4 h5 h6 h7 h8
      obtain ⟨hp, hlen, hwords⟩ := h7 pr (by simp)
      have hadv := st.advanceLocation_not_finished (by rw [h3]; simp)
      have hpos' : st.positionReader.remaining = u32le pr.1 ++
          ((more.map fun pr2 => u32le pr2.1).flatten ++ posPayload (b :: rest')) := by
        rw [h5]
        simp [List.append_assoc]
      have hitem' : st.itemReader.remaining = likelihoodBytes pr.2 ++
          ((more.map fun pr2 => likelihoodBytes pr2.2).flatten ++
            itemPayload (b :: rest')) := by
        rw [h6]
        simp [List.append_assoc]
      obtain ⟨hread, hrem1, hrem2⟩ := readRecordV3_data st st.location pr.1 pr.2 _ _
        hadv hpos' hitem' hp (by rw [h1]; exact hlen) hwords
      have hfuel : (pr :: more).length + sitesTotal (b :: rest') + 1 =
          (more.length + sitesTotal (b :: rest') + 1) + 1 := by
        simp
        omega
      rw [hfuel]
      unfold drainV3
      rw [hread]
      simp only []
      have hih := ihcur j
        (⟨⟨st.location.index, st.location.contigId, st.location.sitesLeft - 1⟩,
          ⟨st.positionReader.data, st.positionReader.pos + 4⟩,
          ⟨st.itemReader.data,
            st.itemReader.pos + 4 * (st.location.index.alleles + 1)⟩⟩ : SafReader)
        h1 h2 (by simp [h3]) h4 hrem1 hrem2
        (fun pr2 hpr2 => h7 pr2 (by simp [hpr2])) h8
      rw [hih]
      simp [h2]

theorem BStream.readMagic_ok (magic rest : Bytes) (h : magic.length = 8) :
    BStream.readMagic magic ⟨magic ++ rest, 0⟩ = .ok ⟨magic ++ rest, 8⟩ ∧
    (BStream.mk (magic ++ rest) 8).remaining = rest := by
  obtain ⟨hex, hrem⟩ := (⟨magic ++ rest, 0⟩ : BStream).readExact_eq 8 magic rest
    (by simp [BStream.remaining]) h
  constructor
  · unfold BStream.readMagic
    rw [hex]
    simp
  · simpa using hrem

theorem expectedRecsGo_sites :
    ∀ (blocks : List SafBlock) (pOff iOff : Nat),
    (expectedRecsGo pOff iOff blocks).map IndexRecord.sites =
      blocks.map fun b => b.recs.length := by
  intro blocks
  induction blocks with
  | nil => intro pOff iOff; rfl
  | cons b rest ih =>
    intro pOff iOff
    simp [expectedRecsGo, ih]

theorem expectedRecsGo_getElem? :
    ∀ (blocks : List SafBlock) (pOff iOff k : Nat) (b : SafBlock), blocks[k]? = some b →
    (expectedRecsGo pOff iOff blocks)[k]? = some ⟨b.name, b.recs.length, 0,
      pOff + (posPayload (blocks.take k)).length,
      iOff + (itemPayload (blocks.take k)).length⟩ := by
  intro blocks
  induction blocks with
  | nil =>
    intro pOff iOff k b hb
    simp at hb
  | cons hd rest ih =>
    intro pOff iOff k b hb
    rcases k with _ | k
    · simp only [List.getElem?_cons_zero, Option.some_inj] at hb
      subst hb
      simp [expectedRecsGo, posPayload, itemPayload]
    · simp only [List.getElem?_cons_succ] at hb
      rw [expectedRecsGo]
      simp only [List.getElem?_cons_succ]
      rw [ih _ _ k b hb]
      have hp : posPayload ((hd :: rest).take (k + 1)) =
          blockPosBytes hd ++ posPayload (rest.take k) := by
        simp [posPayload]
      have hi : itemPayload ((hd :: rest).take (k + 1)) =
          blockItemBytes hd ++ itemPayload (rest.take k) := by
        simp [itemPayload]
      rw [hp, hi]
      simp only [List.length_append, Option.some_inj]
      congr 1 <;> omega

theorem expectedReadsGo_toNamed (idx : Index) :
    ∀ (blocks : List SafBlock) (j : Nat),
    (∀ k b2, blocks[k]? = some b2 →
      ∃ rec, idx.records[j + k]? = some rec ∧ rec.name = b2.name) →
    (expectedReadsGo j blocks).map (toNamed idx) = (flattenBlocks blocks).map some := by
  intro blocks
  induction blocks with
  | nil => intro j _; rfl
  | cons b rest ih =>
    intro j hk
    obtain ⟨rec, hrec, hname⟩ := hk 0 b (by simp)
    have hfirst : (b.recs.map fun pr => (⟨j, pr.1, pr.2⟩ : SafRecordRead)).map (toNamed idx)
        = b.toRecords.map some := by
      rw [List.map_map]
      unfold SafBlock.toRecords
      rw [List.map_map]
      apply List.map_congr_left
      intro pr _
      simp only [Function.comp_apply, toNamed]
      rw [show j + 0 = j by rfl] at hrec
      rw [hrec]
      simp [hname]
    have hrest := ih (j + 1) (by
      intro k b2 hb2
      obtain ⟨rec2, hrec2, hname2⟩ := hk (k + 1) b2 (by simpa using hb2)
      exact ⟨rec2, by rw [show j + 1 + k = j + (k + 1) by omega]; exact hrec2, hname2⟩)
    rw [expectedReadsGo, List.map_append, hfirst, hrest]
    have : flattenBlocks (b :: rest) = b.toRecords ++ flattenBlocks rest := by
      unfold flattenBlocks
      simp
    rw [this, List.map_append]

/-- Claim C1: for every valid grouped sequence, writing it with the SAF v3 writer and
`finish`, then reading the produced index/positions/items files back, yields an index
whose `(name, sites)` pairs are the distinct contigs in first-appearance order with
their record counts, and draining the reader yields exactly the written records in
order (each read record's contig id naming the original contig via the index), after
which the reader returns `Done` (certified because `drainV3` flags a missing `Done` as
an error). -/
theorem C1_write_read_roundtrip (alleles : Nat) (blocks : List SafBlock)
    (hv : ValidBlocksV3 alleles blocks) :
    ∃ idx st reads,
      readIndexV3 (writeAllV3 alleles (flattenBlocks blocks)).1 = .ok idx ∧
      idx.alleles = alleles ∧
      idx.records.map (fun r => (r.name, r.sites)) =
        blocks.map (fun b => (b.name, b.recs.length)) ∧
      fromBytesV3 (writeAllV3 alleles (flattenBlocks blocks)).1
        (writeAllV3 alleles (flattenBlocks blocks)).2.1
        (writeAllV3 alleles (flattenBlocks blocks)).2.2 = .ok st ∧
      drainV3 (sitesTotal blocks + 1) st = .ok reads ∧
      reads.map (toNamed idx) = (flattenBlocks blocks).map some := by
  obtain ⟨hne, hval, hpw, ha, hposb, hitemb⟩ := hv
  have hchain : List.Chain' (· ≠ ·) (blocks.map SafBlock.name) := hpw.chain'
  have hwrite := writeAllV3_eq alleles blocks hne (fun b hb => (hval b hb).1) hchain
  have hvr : ∀ r ∈ expectedRecs blocks, r.name.length < 2 ^ 64 ∧ validUtf8 r.name = true ∧
      r.sites < 2 ^ 64 ∧ r.positionOffset < 2 ^ 64 ∧ r.itemOffset < 2 ^ 64 ∧
      r.sumBand = 0 := by
    intro r hr
    obtain ⟨⟨b, hb, hname, hsites⟩, hsum, _, hp2, _, hi2⟩ :=
      expectedRecsGo_bounds blocks 8 8 r hr
    obtain ⟨-, hutf, hnlen, hblen, -⟩ := hval b hb
    exact ⟨hname ▸ hnlen, hname ▸ hutf, hsites ▸ hblen, by omega, by omega, hsum⟩
  have hidx : readIndexV3 (writeAllV3 alleles (flattenBlocks blocks)).1 =
      .ok ⟨alleles, expectedRecs blocks⟩ := by
    rw [hwrite]
    exact readIndexV3_bytes alleles (expectedRecs blocks) ha hvr
  rcases hbl : blocks with _ | ⟨b0, rest⟩
  · exact absurd hbl hne
  subst hbl
  refine ⟨⟨alleles, expectedRecs (b0 :: rest)⟩,
    ⟨⟨⟨alleles, expectedRecs (b0 :: rest)⟩, 0, b0.recs.length⟩,
      ⟨v3MagicNumber ++ posPayload (b0 :: rest), 8⟩,
      ⟨v3MagicNumber ++ itemPayload (b0 :: rest), 8⟩⟩,
    expectedReadsGo 0 (b0 :: rest), hidx, rfl, expectedRecsGo_pairs (b0 :: rest) 8 8,
    ?_, ?_, ?_⟩
  · unfold fromBytesV3
    rw [hidx]
    simp only []
    have hsetup : Location.setup ⟨alleles, expectedRecs (b0 :: rest)⟩ =
        some ⟨⟨alleles, expectedRecs (b0 :: rest)⟩, 0, b0.recs.length⟩ := by
      rw [Location.setup, expectedRecs, expectedRecsGo]
      rfl
    rw [hsetup]
    simp only []
    rw [hwrite]
    simp only []
    rw [(BStream.readMagic_ok v3MagicNumber (posPayload (b0 :: rest)) rfl).1]
    simp only []
    rw [(BStream.readMagic_ok v3MagicNumber (itemPayload (b0 :: rest)) rfl).1]
  · have htrace := drainV3_trace alleles rest b0.recs 0
      (⟨⟨⟨alleles, expectedRecs (b0 :: rest)⟩, 0, b0.recs.length⟩,
        ⟨v3MagicNumber ++ posPayload (b0 :: rest), 8⟩,
        ⟨v3MagicNumber ++ itemPayload (b0 :: rest), 8⟩⟩ : SafReader)
      rfl rfl rfl
      (by
        intro k
        show ((expectedRecs (b0 :: rest)).map IndexRecord.sites)[0 + 1 + k]? = _
        rw [expectedRecs, expectedRecsGo_sites, show 0 + 1 + k = k + 1 from by omega]
        simp)
      (by
        show (BStream.mk (v3MagicNumber ++ posPayload (b0 :: rest)) 8).remaining = _
        rw [(BStream.readMagic_ok v3MagicNumber (posPayload (b0 :: rest)) rfl).2,
          posPayload_cons]
        rfl)
      (by
        show (BStream.mk (v3MagicNumber ++ itemPayload (b0 :: rest)) 8).remaining = _
        rw [(BStream.readMagic_ok v3MagicNumber (itemPayload (b0 :: rest)) rfl).2,
          itemPayload_cons]
        rfl)
      (fun pr hpr => (hval b0 (by simp)).2.2.2.2 pr hpr)
      (fun b2 hb2 =>
        ⟨(hval b2 (by simp [hb2])).1, (hval b2 (by simp [hb2])).2.2.2.2⟩)
    rw [show sitesTotal (b0 :: rest) + 1 = b0.recs.length + sitesTotal rest + 1 from by
      rw [sitesTotal_cons]]
    rw [htrace]
    rfl
  · exact expectedReadsGo_toNamed ⟨alleles, expectedRecs (b0 :: rest)⟩ (b0 :: rest) 0 (by
      intro k b2 hb2
      have hget : (expectedRecs (b0 :: rest))[0 + k]? =
          some ⟨b2.name, b2.recs.length, 0,
            8 + (posPayload ((b0 :: rest).take k)).length,
            8 + (itemPayload ((b0 :: rest).take k)).length⟩ := by
        rw [Nat.zero_add]
        exact expectedRecsGo_getElem? (b0 :: rest) 8 8 k b2 hb2
      exact ⟨_, hget, rfl⟩)

/-- Witness for claim C1: the round-trip statement instantiated at `alleles = 1` and the
concrete two-contig sequence `sampleBlocks`, with validity discharged by computation. -/
theorem C1_write_read_roundtrip_witness :
    ∃ idx st reads,
      readIndexV3 (writeAllV3 1 (flattenBlocks sampleBlocks)).1 = .ok idx ∧
      idx.alleles = 1 ∧
      idx.records.map (fun r => (r.name, r.sites)) =
        sampleBlocks.map (fun b => (b.name, b.recs.length)) ∧
      fromBytesV3 (writeAllV3 1 (flattenBlocks sampleBlocks)).1
        (writeAllV3 1 (flattenBlocks sampleBlocks)).2.1
        (writeAllV3 1 (flattenBlocks sampleBlocks)).2.2 = .ok st ∧
      drainV3 (sitesTotal sampleBlocks + 1) st = .ok reads ∧
      reads.map (toNamed idx) = (flattenBlocks sampleBlocks).map some :=
  C1_write_read_roundtrip 1 sampleBlocks (by
    unfold ValidBlocksV3 sampleBlocks
    refine ⟨by decide, by decide, by decide, by decide, by decide, by decide⟩)

theorem readIndexV3_writeAllV3 (alleles : Nat) (blocks : List SafBlock)
    (hv : ValidBlocksV3 alleles blocks) :
    readIndexV3 (writeAllV3 alleles (flattenBlocks blocks)).1 =
      .ok ⟨alleles, expectedRecs blocks⟩ := by
  obtain ⟨hne, hval, hpw, ha, hposb, hitemb⟩ := hv
  have hwrite := writeAllV3_eq alleles blocks hne (fun b hb => (hval b hb).1) hpw.chain'
  rw [hwrite]
  apply readIndexV3_bytes alleles (expectedRecs blocks) ha
  intro r hr
  obtain ⟨⟨b, hb, hname, hsites⟩, hsum, _, hp2, _, hi2⟩ :=
    expectedRecsGo_bounds blocks 8 8 r hr
  obtain ⟨-, hutf, hnlen, hblen, -⟩ := hval b hb
  exact ⟨hname ▸ hnlen, hname ▸ hutf, hsites ▸ hblen, by omega, by omega, hsum⟩

theorem fromBytesV3_writeAllV3 (alleles : Nat) (b0 : SafBlock) (rest : List SafBlock)
    (hv : ValidBlocksV3 alleles (b0 :: rest)) :
    fromBytesV3 (writeAllV3 alleles (flattenBlocks (b0 :: rest))).1
      (writeAllV3 alleles (flattenBlocks (b0 :: rest))).2.1
      (writeAllV3 alleles (flattenBlocks (b0 :: rest))).2.2 =
      .ok ⟨⟨⟨alleles, expectedRecs (b0 :: rest)⟩, 0, b0.recs.length⟩,
        ⟨v3MagicNumber ++ posPayload (b0 :: rest), 8⟩,
        ⟨v3MagicNumber ++ itemPayload (b0 :: rest), 8⟩⟩ := by
  obtain ⟨hne, hval, hpw, ha, hposb, hitemb⟩ := id hv
  have hwrite := writeAllV3_eq alleles (b0 :: rest) hne (fun b hb => (hval b hb).1)
    hpw.chain'
  have hidx := readIndexV3_writeAllV3 alleles (b0 :: rest) hv
  unfold fromBytesV3
  rw [hidx]
  simp only []
  have hsetup : Location.setup ⟨alleles, expectedRecs (b0 :: rest)⟩ =
      some ⟨⟨alleles, expectedRecs (b0 :: rest)⟩, 0, b0.recs.length⟩ := by
    rw [Location.setup, expectedRecs, expectedRecsGo]
    rfl
  rw [hsetup]
  simp only []
  rw [hwrite]
  simp only []
  rw [(BStream.readMagic_ok v3MagicNumber (posPayload (b0 :: rest)) rfl).1]
  simp only []
  rw [(BStream.readMagic_ok v3MagicNumber (itemPayload (b0 :: rest)) rfl).1]

theorem posPayload_append (l1 l2 : List SafBlock) :
    posPayload (l1 ++ l2) = posPayload l1 ++ posPayload l2 := by
  simp [posPayload]

theorem itemPayload_append (l1 l2 : List SafBlock) :
    itemPayload (l1 ++ l2) = itemPayload l1 ++ itemPayload l2 := by
  simp [itemPayload]

theorem expectedRecsGo_findIdx :
    ∀ (blocks : List SafBlock) (pOff iOff j : Nat) (b : SafBlock),
    blocks[j]? = some b →
    (blocks.map SafBlock.name).Pairwise (· ≠ ·) →
    (expectedRecsGo pOff iOff blocks).findIdx? (fun r => r.name = b.name) = some j := by
  intro blocks
  induction blocks with
  | nil =>
    intro pOff iOff j b hb _
    simp at hb
  | cons hd rest ih =>
    intro pOff iOff j b hb hpw
    rcases j with _ | k
    · simp only [List.getElem?_cons_zero, Option.some_inj] at hb
      subst hb
      rw [expectedRecsGo, List.findIdx?_cons]
      simp
    · simp only [List.getElem?_cons_succ] at hb
      have hbname : b.name ∈ rest.map SafBlock.name := by
        have hmem : b ∈ rest := by
          have := List.getElem?_eq_some.mp hb
          obtain ⟨hlt, hbe⟩ := this
          exact hbe ▸ List.getElem_mem hlt
        exact List.mem_map_of_mem _ hmem
      have hpc := List.pairwise_cons.mp
        (show List.Pairwise (· ≠ ·) (hd.name :: rest.map SafBlock.name) by simpa using hpw)
      have hne : hd.name ≠ b.name := hpc.1 b.name hbname
      rw [expectedRecsGo, List.findIdx?_cons]
      have : (decide ((⟨hd.name, hd.recs.length, 0, pOff, iOff⟩ : IndexRecord).name =
          b.name)) = false := by
        simpa using hne
      rw [this]
      simp only [Bool.false_eq_true, if_false, List.findIdx?_succ]
      rw [ih _ _ k b hb hpc.2]
      rfl

/-- Claim C6: `seek(contig_id)` with an in-range id sets the location to
`(contig_id, records[contig_id].sites)` and seeks both streams to the stored offsets;
an out-of-range id panics (`none`), as does `seek_by_name` with an absent name; and on a
file written from a valid grouped sequence, seeking by name to any written contig and
reading one record yields the first record written on that contig, with the record's
contig id naming that contig via the index. -/
theorem C6_seek_behaviour :
    (∀ (st : SafReader) (cid : Nat), st.location.index.records[cid]? = none →
      st.seek cid = none) ∧
    (∀ (st : SafReader) (cid : Nat) (r : IndexRecord),
      st.location.index.records[cid]? = some r →
      st.seek cid = some ⟨⟨st.location.index, cid, r.sites⟩,
        st.positionReader.seek r.positionOffset, st.itemReader.seek r.itemOffset⟩) ∧
    (∀ (st : SafReader) (name : Bytes),
      (∀ r ∈ st.location.index.records, r.name ≠ name) →
      st.seekByName name = none) ∧
    (∀ (alleles : Nat) (blocks : List SafBlock), ValidBlocksV3 alleles blocks →
      ∀ (j : Nat) (b : SafBlock), blocks[j]? = some b →
      ∃ st st1 pr0,
        b.recs.head? = some pr0 ∧
        fromBytesV3 (writeAllV3 alleles (flattenBlocks blocks)).1
          (writeAllV3 alleles (flattenBlocks blocks)).2.1
          (writeAllV3 alleles (flattenBlocks blocks)).2.2 = .ok st ∧
        st.seekByName b.name = some st1 ∧
        st1.location.contigId = j ∧
        st1.location.sitesLeft = b.recs.length ∧
        (st1.location.index.records.map IndexRecord.name)[j]? = some b.name ∧
        ∃ st2, st1.readRecordV3 = .ok (.record ⟨j, pr0.1, pr0.2⟩ st2)) := by
  refine ⟨?_, ?_, ?_, ?_⟩
  · intro st cid h
    unfold SafReader.seek
    rw [h]
  · intro st cid r h
    unfold SafReader.seek
    rw [h]
  · intro st name h
    unfold SafReader.seekByName
    have : st.location.index.records.findIdx? (fun r => r.name = name) = none := by
      rw [List.findIdx?_eq_none_iff]
      intro r hr
      simpa using h r hr
    rw [this]
  · intro alleles blocks hv j b hj
    obtain ⟨hne, hval, hpw, ha, hposb, hitemb⟩ := id hv
    rcases hbl : blocks with _ | ⟨b0, rest⟩
    · exact absurd hbl hne
    subst hbl
    have hbmem : b ∈ b0 :: rest := by
      obtain ⟨hlt, hbe⟩ := List.getElem?_eq_some.mp hj
      exact hbe ▸ List.getElem_mem hlt
    obtain ⟨hbne, -, -, -, hbrec⟩ := hval b hbmem
    obtain ⟨pr0, more, hbrecs⟩ : ∃ pr0 more, b.recs = pr0 :: more := by
      rcases hx : b.recs with _ | ⟨x, xs⟩
      · exact absurd hx hbne
      · exact ⟨x, xs, rfl⟩
    have hfrom := fromBytesV3_writeAllV3 alleles b0 rest hv
    have hfind := expectedRecsGo_findIdx (b0 :: rest) 8 8 j b hj hpw
    have hget := expectedRecsGo_getElem? (b0 :: rest) 8 8 j b hj
    have hseek :
        (⟨⟨⟨alleles, expectedRecs (b0 :: rest)⟩, 0, b0.recs.length⟩,
          ⟨v3MagicNumber ++ posPayload (b0 :: rest), 8⟩,
          ⟨v3MagicNumber ++ itemPayload (b0 :: rest), 8⟩⟩ : SafReader).seekByName b.name =
        some ⟨⟨⟨alleles, expectedRecs (b0 :: rest)⟩, j, b.recs.length⟩,
          ⟨v3MagicNumber ++ posPayload (b0 :: rest),
            8 + (posPayload ((b0 :: rest).take j)).length⟩,
          ⟨v3MagicNumber ++ itemPayload (b0 :: rest),
            8 + (itemPayload ((b0 :: rest).take j)).length⟩⟩ := by
      unfold SafReader.seekByName
      rw [show (⟨⟨⟨alleles, expectedRecs (b0 :: rest)⟩, 0, b0.recs.length⟩,
          ⟨v3MagicNumber ++ posPayload (b0 :: rest), 8⟩,
          ⟨v3MagicNumber ++ itemPayload (b0 :: rest), 8⟩⟩ :
            SafReader).location.index.records = expectedRecs (b0 :: rest) from rfl]
      rw [expectedRecs, hfind]
      simp only []
      unfold SafReader.seek
      simp only []
      rw [hget]
      rfl
    refine ⟨⟨⟨⟨alleles, expectedRecs (b0 :: rest)⟩, 0, b0.recs.length⟩,
        ⟨v3MagicNumber ++ posPayload (b0 :: rest), 8⟩,
        ⟨v3MagicNumber ++ itemPayload (b0 :: rest), 8⟩⟩,
      ⟨⟨⟨alleles, expectedRecs (b0 :: rest)⟩, j, b.recs.length⟩,
        ⟨v3MagicNumber ++ posPayload (b0 :: rest),
          8 + (posPayload ((b0 :: rest).take j)).length⟩,
        ⟨v3MagicNumber ++ itemPayload (b0 :: rest),
          8 + (itemPayload ((b0 :: rest).take j)).length⟩⟩,
      pr0, by simp [hbrecs], hfrom, hseek, rfl, rfl, ?_, ?_⟩
    · rw [List.getElem?_map]
      rw [show (expectedRecs (b0 :: rest))[j]? = _ from hget]
      rfl
    · have hjlt : j < (b0 :: rest).length := (List.getElem?_eq_some.mp hj).1
      have hdropj : (b0 :: rest).drop j = b :: (b0 :: rest).drop (j + 1) := by
        rw [List.drop_eq_getElem_cons hjlt]
        congr 1
        exact (List.getElem?_eq_some.mp hj).2
      have hsplit : posPayload (b0 :: rest) =
          posPayload ((b0 :: rest).take j) ++ posPayload ((b0 :: rest).drop j) := by
        rw [← posPayload_append, List.take_append_drop]
      have hsplit2 : itemPayload (b0 :: rest) =
          itemPayload ((b0 :: rest).take j) ++ itemPayload ((b0 :: rest).drop j) := by
        rw [← itemPayload_append, List.take_append_drop]
      have hposrem : (BStream.mk (v3MagicNumber ++ posPayload (b0 :: rest))
          (8 + (posPayload ((b0 :: rest).take j)).length)).remaining =
          u32le pr0.1 ++ ((more.map fun pr2 => u32le pr2.1).flatten ++
            posPayload ((b0 :: rest).drop (j + 1))) := by
        show (v3MagicNumber ++ posPayload (b0 :: rest)).drop
          (8 + (posPayload ((b0 :: rest).take j)).length) = _
        rw [show (8 : Nat) + (posPayload ((b0 :: rest).take j)).length =
          v3MagicNumber.length + (posPayload ((b0 :: rest).take j)).length from rfl]
        rw [List.drop_append, hsplit, List.drop_left' rfl, hdropj, posPayload_cons]
        rw [show blockPosBytes b = u32le pr0.1 ++ (more.map fun pr2 => u32le pr2.1).flatten
          from by rw [blockPosBytes, hbrecs]; simp]
        simp [List.append_assoc]
      have hitemrem : (BStream.mk (v3MagicNumber ++ itemPayload (b0 :: rest))
          (8 + (itemPayload ((b0 :: rest).take j)).length)).remaining =
          likelihoodBytes pr0.2 ++ ((more.map fun pr2 => likelihoodBytes pr2.2).flatten ++
            itemPayload ((b0 :: rest).drop (j + 1))) := by
        show (v3MagicNumber ++ itemPayload (b0 :: rest)).drop
          (8 + (itemPayload ((b0 :: rest).take j)).length) = _
        rw [show (8 : Nat) + (itemPayload ((b0 :: rest).take j)).length =
          v3MagicNumber.length + (itemPayload ((b0 :: rest).take j)).length from rfl]
        rw [List.drop_append, hsplit2, List.drop_left' rfl, hdropj, itemPayload_cons]
        rw [show blockItemBytes b = likelihoodBytes pr0.2 ++
          (more.map fun pr2 => likelihoodBytes pr2.2).flatten
          from by rw [blockItemBytes, hbrecs]; simp]
        simp [List.append_assoc]
      obtain ⟨hp0, hlen0, hw0⟩ := hbrec pr0 (by simp [hbrecs])
      obtain ⟨hread, -, -⟩ := readRecordV3_data
        (⟨⟨⟨alleles, expectedRecs (b0 :: rest)⟩, j, b.recs.length⟩,
          ⟨v3MagicNumber ++ posPayload (b0 :: rest),
            8 + (posPayload ((b0 :: rest).take j)).length⟩,
          ⟨v3MagicNumber ++ itemPayload (b0 :: rest),
            8 + (itemPayload ((b0 :: rest).take j)).length⟩⟩ : SafReader)
        ⟨⟨alleles, expectedRecs (b0 :: rest)⟩, j, b.recs.length⟩ pr0.1 pr0.2 _ _
        (SafReader.advanceLocation_not_finished _ (by rw [hbrecs]; simp))
        hposrem hitemrem hp0 hlen0 hw0
      exact ⟨_, hread⟩

/-- Witness for claim C6: out-of-range `seek` and absent-name `seek_by_name` panic on a
concrete reader, and on the concrete written `sampleBlocks` file, seeking by name to the
second contig and reading one record yields that contig's first record. -/
theorem C6_seek_behaviour_witness :
    (SafReader.mk ⟨⟨1, [⟨[99], 1, 0, 8, 8⟩]⟩, 0, 1⟩ ⟨[], 0⟩ ⟨[], 0⟩).seek 5 = none ∧
    (SafReader.mk ⟨⟨1, [⟨[99], 1, 0, 8, 8⟩]⟩, 0, 1⟩ ⟨[], 0⟩ ⟨[], 0⟩).seekByName [100] =
      none ∧
    ∃ st st1 pr0,
      (⟨[99, 104, 114, 50], [(2, [9, 10])]⟩ : SafBlock).recs.head? = some pr0 ∧
      fromBytesV3 (writeAllV3 1 (flattenBlocks sampleBlocks)).1
        (writeAllV3 1 (flattenBlocks sampleBlocks)).2.1
        (writeAllV3 1 (flattenBlocks sampleBlocks)).2.2 = .ok st ∧
      st.seekByName (⟨[99, 104, 114, 50], [(2, [9, 10])]⟩ : SafBlock).name = some st1 ∧
      st1.location.contigId = 1 ∧
      st1.location.sitesLeft =
        (⟨[99, 104, 114, 50], [(2, [9, 10])]⟩ : SafBlock).recs.length ∧
      (st1.location.index.records.map IndexRecord.name)[1]? =
        some (⟨[99, 104, 114, 50], [(2, [9, 10])]⟩ : SafBlock).name ∧
      ∃ st2, st1.readRecordV3 = .ok (.record ⟨1, pr0.1, pr0.2⟩ st2) :=
  ⟨C6_seek_behaviour.1 _ 5 (by decide),
   C6_seek_behaviour.2.2.1 _ [100] (by decide),
   C6_seek_behaviour.2.2.2 1 sampleBlocks
     (by
       unfold ValidBlocksV3 sampleBlocks
       refine ⟨by decide, by decide, by decide, by decide, by decide, by decide⟩)
     1 ⟨[99, 104, 114, 50], [(2, [9, 10])]⟩ (by decide)⟩

/-- Claim C2 (the code diverges from the claim): on the valid input
`S1 = A:[1,5], U:[1,2]`, `S2 = A:[2], U:[1,2]` (contigs in identical order, positions
strictly increasing within every contig), the intersection cursor yields only the tuple
at `(U, 2)` and then `Done`, although `(U, 1)` is present in both readers: the claim
(and the spec's brute-force oracle) requires the tuples at `(U, 1)` and `(U, 2)`.  The
site is lost when the position loop crosses from contig `A` into `U` on the second
reader: the re-align restart of `read_records` begins by reading a fresh record into
every buffer, discarding the crossing reader's buffered first record on `U` — the live
shared site `(U, 1)`. -/
theorem C2_intersect_misses_shared_site :
    ∃ st1 st2,
      fromBytesV3 (writeAllV3 1 (flattenBlocks c2BlocksA)).1
          (writeAllV3 1 (flattenBlocks c2BlocksA)).2.1
          (writeAllV3 1 (flattenBlocks c2BlocksA)).2.2 = .ok st1 ∧
      fromBytesV3 (writeAllV3 1 (flattenBlocks c2BlocksB)).1
          (writeAllV3 1 (flattenBlocks c2BlocksB)).2.1
          (writeAllV3 1 (flattenBlocks c2BlocksB)).2.2 = .ok st2 ∧
      ValidBlocksV3 1 c2BlocksA ∧ ValidBlocksV3 1 c2BlocksB ∧
      strictPositions c2BlocksA = true ∧ strictPositions c2BlocksB = true ∧
      c2BlocksA.map SafBlock.name = c2BlocksB.map SafBlock.name ∧
      scNew [st1, st2] = some [([65], [0, 0]), ([85], [1, 1])] ∧
      idrain 100 [st1, st2] [([65], [0, 0]), ([85], [1, 1])] =
        some [[⟨1, 2, [0, 0]⟩, ⟨1, 2, [0, 0]⟩]] ∧
      claimedIntersection [c2BlocksA, c2BlocksB] =
        [[⟨1, 1, [0, 0]⟩, ⟨1, 1, [0, 0]⟩], [⟨1, 2, [0, 0]⟩, ⟨1, 2, [0, 0]⟩]] ∧
      some (claimedIntersection [c2BlocksA, c2BlocksB]) ≠
        idrain 100 [st1, st2] [([65], [0, 0]), ([85], [1, 1])] := by
  refine ⟨⟨⟨⟨1, expectedRecs c2BlocksA⟩, 0, 2⟩,
      ⟨v3MagicNumber ++ posPayload c2BlocksA, 8⟩,
      ⟨v3MagicNumber ++ itemPayload c2BlocksA, 8⟩⟩,
    ⟨⟨⟨1, expectedRecs c2BlocksB⟩, 0, 1⟩,
      ⟨v3MagicNumber ++ posPayload c2BlocksB, 8⟩,
      ⟨v3MagicNumber ++ itemPayload c2BlocksB, 8⟩⟩,
    ?_, ?_, ?_, ?_, by decide, by decide, by decide, ?_, ?_, by decide, by decide⟩
  · rfl
  · rfl
  · unfold ValidBlocksV3 c2BlocksA
    refine ⟨by decide, by decide, by decide, by decide, by decide, by decide⟩
  · unfold ValidBlocksV3 c2BlocksB
    refine ⟨by decide, by decide, by decide, by decide, by decide, by decide⟩
  · rfl
  · rfl

end AngsdIo
